import Mathlib

/-!
Verification of the `mockfetch` library against its specification.

The development shallowly embeds the current version of `src/index.ts`
(the second, `patternSymbol`-based revision, whose API matches the
published 0.2.0 README): the configuration store, the mock registry, the
interception state and the response-synthesis engine (`mockedFetch`).

External platform collaborators (`URLPattern`, `URL`, `Request`,
`Response`, `Headers`, `JSON.stringify` and `JSON.parse`,
`String.prototype.toUpperCase` and `toLowerCase`) are modelled from their
standard behaviour: pattern objects are opaque references whose
compilation and matching behaviour is a parameter (`FetchEnv`), and the
JSON codec is a verified executable model over JSON-representable data.
-/

namespace Mockfetch

/-! ## JavaScript string case mapping

Models of `String.prototype.toUpperCase` and `toLowerCase` on the ASCII
letters, the fragment relevant for HTTP method and header names. -/

/-- ASCII uppercase mapping of one character. -/
def jsCharToUpper (c : Char) : Char :=
  if 97 ≤ c.toNat ∧ c.toNat ≤ 122 then Char.ofNat (c.toNat - 32) else c

/-- ASCII lowercase mapping of one character. -/
def jsCharToLower (c : Char) : Char :=
  if 65 ≤ c.toNat ∧ c.toNat ≤ 90 then Char.ofNat (c.toNat + 32) else c

/-- Models `s.toUpperCase()`. -/
def jsToUpperCase (s : String) : String := ⟨s.data.map jsCharToUpper⟩

/-- Models `s.toLowerCase()`. -/
def jsToLowerCase (s : String) : String := ⟨s.data.map jsCharToLower⟩

/-! ## JSON-representable data and the JSON codec

The serializer models `JSON.stringify` on plain data (`null`, booleans,
integer numbers, strings, arrays, keyed objects); the parser models
`JSON.parse` on the serializer's canonical output (no insignificant
whitespace, which the serializer never emits). Both are external platform
collaborators of the library; the round-trip theorem below justifies the
"parsed JSON body deep-equals the original object" reading of the
specification. -/

/-- A JSON-representable value. Numbers are modelled as integers, which
    covers the data the library and its tests exchange; floating-point
    formatting is outside the embedding. -/
inductive Json where
  | null
  | bool (b : Bool)
  | num (n : Int)
  | str (s : String)
  | arr (elements : List Json)
  | obj (members : List (String × Json))
deriving Inhabited

/-- Lowercase hexadecimal digit character, as emitted by `JSON.stringify`
    inside `\u00xx` escapes. -/
def jsonHexDigit (n : Nat) : Char :=
  if n < 10 then Char.ofNat (48 + n) else Char.ofNat (87 + n)

/-- JSON string escaping of one character, exactly as `JSON.stringify`: the
    two-character escapes for the quote, the backslash, backspace, form
    feed, newline, carriage return and tab; `\u00xx` for the other control
    characters; every other character stands for itself. -/
def jsonEscapeChar (c : Char) : List Char :=
  if c = '"' then ['\\', '"']
  else if c = '\\' then ['\\', '\\']
  else if c = '\x08' then ['\\', 'b']
  else if c = '\x0c' then ['\\', 'f']
  else if c = '\n' then ['\\', 'n']
  else if c = '\r' then ['\\', 'r']
  else if c = '\t' then ['\\', 't']
  else if c.toNat < 32 then
    ['\\', 'u', '0', '0', jsonHexDigit (c.toNat / 16), jsonHexDigit (c.toNat % 16)]
  else [c]

/-- A JSON string literal: quote, escaped characters, quote. -/
def jsonQuoteChars (s : String) : List Char :=
  '"' :: (s.data.flatMap jsonEscapeChar ++ ['"'])

/-- Decimal digit characters of a natural number, most significant first,
    by structural recursion on a fuel bound (so that closed serializations
    reduce definitionally); `n + 1` units of fuel always suffice. -/
def natDecimalCharsAux : Nat → Nat → List Char
  | 0, _ => []
  | fuel + 1, n =>
    if n < 10 then [Char.ofNat (48 + n)]
    else natDecimalCharsAux fuel (n / 10) ++ [Char.ofNat (48 + n % 10)]

/-- Decimal digit characters of a natural number, most significant first. -/
def natDecimalChars (n : Nat) : List Char := natDecimalCharsAux (n + 1) n

/-- Decimal characters of an integer: optional minus sign, then digits. -/
def intDecimalChars (i : Int) : List Char :=
  if i < 0 then '-' :: natDecimalChars i.natAbs else natDecimalChars i.natAbs

mutual

/-- Characters of the canonical JSON rendering of a value. -/
def jsonChars : Json → List Char
  | .null => "null".data
  | .bool true => "true".data
  | .bool false => "false".data
  | .num n => intDecimalChars n
  | .str s => jsonQuoteChars s
  | .arr [] => ['[', ']']
  | .arr (x :: xs) => '[' :: (jsonChars x ++ (jsonCharsElemsRest xs ++ [']']))
  | .obj [] => ['{', '}']
  | .obj ((k, v) :: kvs) =>
    '{' :: (jsonQuoteChars k ++ ':' :: (jsonChars v ++ (jsonCharsMembersRest kvs ++ ['}'])))

/-- Comma-prefixed renderings of the remaining array elements. -/
def jsonCharsElemsRest : List Json → List Char
  | [] => []
  | x :: xs => ',' :: (jsonChars x ++ jsonCharsElemsRest xs)

/-- Comma-prefixed renderings of the remaining object members. -/
def jsonCharsMembersRest : List (String × Json) → List Char
  | [] => []
  | (k, v) :: kvs => ',' :: (jsonQuoteChars k ++ ':' :: (jsonChars v ++ jsonCharsMembersRest kvs))

end

/-- Models the external `JSON.stringify` on JSON-representable data. -/
def Json.stringify (j : Json) : String := ⟨jsonChars j⟩

/-- Whether a character is a decimal digit. -/
def jsonIsDigit (c : Char) : Bool := 48 ≤ c.toNat && c.toNat ≤ 57

/-- Value of a hexadecimal digit character (either letter case). -/
def jsonHexVal (c : Char) : Option Nat :=
  if 48 ≤ c.toNat ∧ c.toNat ≤ 57 then some (c.toNat - 48)
  else if 97 ≤ c.toNat ∧ c.toNat ≤ 102 then some (c.toNat - 87)
  else if 65 ≤ c.toNat ∧ c.toNat ≤ 70 then some (c.toNat - 55)
  else none

/-- Splits a leading run of decimal digits off the input, as digit values. -/
def jsonDigitSpan : List Char → List Nat × List Char
  | [] => ([], [])
  | c :: cs =>
    if jsonIsDigit c then
      let (ds, r) := jsonDigitSpan cs
      ((c.toNat - 48) :: ds, r)
    else ([], c :: cs)

/-- Value of a most-significant-first digit list. -/
def jsonDigitsVal (ds : List Nat) : Nat := ds.foldl (fun a d => a * 10 + d) 0

/-- Parses the body of a JSON string literal after the opening quote,
    undoing the escapes, up to the closing quote. -/
def jsonParseStringBody : List Char → Option (List Char × List Char)
  | [] => none
  | c :: rest =>
    if c = '"' then some ([], rest)
    else if c = '\\' then
      match rest with
      | '"' :: r => (jsonParseStringBody r).map (fun p => ('"' :: p.1, p.2))
      | '\\' :: r => (jsonParseStringBody r).map (fun p => ('\\' :: p.1, p.2))
      | '/' :: r => (jsonParseStringBody r).map (fun p => ('/' :: p.1, p.2))
      | 'b' :: r => (jsonParseStringBody r).map (fun p => ('\x08' :: p.1, p.2))
      | 'f' :: r => (jsonParseStringBody r).map (fun p => ('\x0c' :: p.1, p.2))
      | 'n' :: r => (jsonParseStringBody r).map (fun p => ('\n' :: p.1, p.2))
      | 'r' :: r => (jsonParseStringBody r).map (fun p => ('\r' :: p.1, p.2))
      | 't' :: r => (jsonParseStringBody r).map (fun p => ('\t' :: p.1, p.2))
      | 'u' :: h1 :: h2 :: h3 :: h4 :: r =>
        match jsonHexVal h1, jsonHexVal h2, jsonHexVal h3, jsonHexVal h4 with
        | some a, some b, some v3, some v4 =>
          (jsonParseStringBody r).map
            (fun p => (Char.ofNat (((a * 16 + b) * 16 + v3) * 16 + v4) :: p.1, p.2))
        | _, _, _, _ => none
      | _ => none
    else (jsonParseStringBody rest).map (fun p => (c :: p.1, p.2))

/-- A remainder that cannot extend a parsed number: empty, or led by a
    character that is no decimal digit (every canonical JSON delimiter
    qualifies). -/
def jsonNumDelim : List Char → Bool
  | [] => true
  | c :: _ => !(jsonIsDigit c)

/-- Parses a JSON number (integer form: optional minus sign, digit run). -/
def jsonParseNumber (input : List Char) : Option (Json × List Char) :=
  match input with
  | [] => none
  | c :: rest =>
    if c = '-' then
      match jsonDigitSpan rest with
      | ([], _) => none
      | (ds, r) => some (.num (-(jsonDigitsVal ds : Int)), r)
    else
      match jsonDigitSpan (c :: rest) with
      | ([], _) => none
      | (ds, r) => some (.num (jsonDigitsVal ds), r)

mutual

/-- Parses one JSON value (fuel-indexed; the top-level entry point supplies
    more fuel than the input length). -/
def jsonParseValue : Nat → List Char → Option (Json × List Char)
  | 0, _ => none
  | fuel + 1, input =>
    match input with
    | [] => none
    | c :: rest =>
      if c = 'n' then
        match rest with
        | 'u' :: 'l' :: 'l' :: r => some (.null, r)
        | _ => none
      else if c = 't' then
        match rest with
        | 'r' :: 'u' :: 'e' :: r => some (.bool true, r)
        | _ => none
      else if c = 'f' then
        match rest with
        | 'a' :: 'l' :: 's' :: 'e' :: r => some (.bool false, r)
        | _ => none
      else if c = '"' then
        (jsonParseStringBody rest).map (fun p => (Json.str ⟨p.1⟩, p.2))
      else if c = '[' then
        match rest with
        | [] => none
        | d :: r =>
          if d = ']' then some (.arr [], r)
          else (jsonParseElems fuel (d :: r)).map (fun p => (Json.arr p.1, p.2))
      else if c = '{' then
        match rest with
        | [] => none
        | d :: r =>
          if d = '}' then some (.obj [], r)
          else (jsonParseMembers fuel (d :: r)).map (fun p => (Json.obj p.1, p.2))
      else jsonParseNumber (c :: rest)

/-- Parses one or more comma-separated array elements up to the closing
    bracket. -/
def jsonParseElems : Nat → List Char → Option (List Json × List Char)
  | 0, _ => none
  | fuel + 1, input =>
    match jsonParseValue fuel input with
    | none => none
    | some (v, rest) =>
      match rest with
      | ',' :: r => (jsonParseElems fuel r).map (fun p => (v :: p.1, p.2))
      | ']' :: r => some ([v], r)
      | _ => none

/-- Parses one or more comma-separated object members up to the closing
    brace. -/
def jsonParseMembers : Nat → List Char → Option (List (String × Json) × List Char)
  | 0, _ => none
  | fuel + 1, input =>
    match input with
    | '"' :: rest =>
      match jsonParseStringBody rest with
      | none => none
      | some (key, r1) =>
        match r1 with
        | ':' :: r2 =>
          match jsonParseValue fuel r2 with
          | none => none
          | some (v, r3) =>
            match r3 with
            | ',' :: r4 => (jsonParseMembers fuel r4).map (fun p => ((⟨key⟩, v) :: p.1, p.2))
            | '}' :: r4 => some ([(⟨key⟩, v)], r4)
            | _ => none
        | _ => none
    | _ => none

end

/-- Models the external `JSON.parse` on canonical serializer output. -/
def Json.parse (s : String) : Option Json :=
  match jsonParseValue (s.data.length + 1) s.data with
  | some (j, []) => some j
  | _ => none

/-! ## Platform value objects

Minimal models of the web platform objects the library consumes as opaque
capability-bearing values: `URLPattern` (a reference whose behaviour lives
in `FetchEnv`), `URL`, `Request`, `Headers` and `Response`. -/

/-- A compiled `URLPattern` object, identified by reference; JS compares
    pattern objects by identity, which the reference equality captures. -/
abbrev PatternRef := Nat

/-- Result of `URLPattern.exec`: the named captures of `pathname.groups`
    (opaque to the library, handed through to response callbacks). -/
structure URLPatternResult where
  pathnameGroups : List (String × String)
deriving DecidableEq

/-- A parsed `URL` object: its `href` and `search` parts. -/
structure URL where
  href : String
  search : String
deriving DecidableEq

/-- Fetch call options (`RequestInit`). Besides `method`, the members are
    claim-opaque and modelled as one `rest` payload, copied verbatim by the
    spread `{ ...requestOptions, method }` of the source. -/
structure RequestInit where
  method : Option String
  rest : List (String × String)
deriving DecidableEq

/-- A platform `Request` object: its `url` and the options it carries. -/
structure Request where
  url : String
  options : RequestInit
deriving DecidableEq

/-- First argument of `fetch`: a URL string, a `URL` object (contributing
    its `href`), or a `Request` object. -/
inductive RequestInfo where
  | str (s : String)
  | url (u : URL)
  | request (r : Request)
deriving DecidableEq

/-- A platform `Headers` collection: name/value pairs with case-insensitive
    lookup and update. Value combination of duplicate names by `get` is
    elided; the library only consults names it may also have written. -/
abbrev Headers := List (String × String)

/-- Models `Headers.get` (case-insensitive). -/
def headersGet (h : Headers) (name : String) : Option String :=
  (h.find? fun p => jsToLowerCase p.1 == jsToLowerCase name).map Prod.snd

/-- Models `Headers.set` (case-insensitive replacement). -/
def headersSet (h : Headers) (name value : String) : Headers :=
  (h.filter fun p => jsToLowerCase p.1 != jsToLowerCase name) ++ [(name, value)]

/-- The `headers` member of a response description: an object literal, an
    array of two-item arrays, or a `Headers` instance — the three
    representations `optionallyAddJSONContentType` distinguishes. -/
inductive HeadersRep where
  | object (l : List (String × String))
  | pairs (l : List (String × String))
  | collection (h : Headers)
deriving DecidableEq

/-- A value supplied as the `body` of a simplified response. Strings, the
    binary buffer kinds and streams are accepted directly by the `Response`
    constructor; `json` stands for plain keyed data (the source type
    `object`) that the constructor cannot accept. A JS string body is
    always represented by `str`, never by `json (.str _)`. -/
inductive BodyValue where
  | str (s : String)
  | binaryBuffer (tag : Nat)
  | stream (tag : Nat)
  | json (j : Json)

/-- Options of the `Response` constructor (`status` and `headers` remain
    after the body is destructured off a simplified response). -/
structure ResponseInit where
  status : Option Int
  headers : Option HeadersRep

/-- A platform `Response` object: observable status, headers and body.
    Construction models `new Response(body, init)` with the standard status
    default of 200 (the constructor's range validation of exotic statuses
    is elided; the claims only exercise valid ones). -/
structure Response where
  status : Int
  headers : Headers
  body : Option BodyValue

/-- Headers of a constructed `Response`, from whichever representation the
    init carried. -/
def headersOfInit : Option HeadersRep → Headers
  | none => []
  | some (.object l) => l
  | some (.pairs l) => l
  | some (.collection h) => h

/-- Models `new Response(body, init)`. -/
def mkResponse (body : Option BodyValue) (init : ResponseInit) : Response :=
  { status := init.status.getD 200, headers := headersOfInit init.headers, body := body }

/-! ## Configuration store (source lines 410-445 of the current version) -/

/-- The validated `handleUnmockedRequests` policy. The source stores the
    literal string; the initializer and the setter confine it to the three
    enumerated values, which the model captures in the type. -/
inductive UnmockedPolicy where
  | passThrough
  | return404
  | throwError
deriving DecidableEq

/-- The process-wide configuration singleton. -/
structure FetchConfiguration where
  handleUnmockedRequests : UnmockedPolicy
  responseDelay : Int
  autoReplaceFetch : Bool
  logging : Bool
deriving DecidableEq

/-- The initial configuration (source lines 410-415). -/
def defaultConfiguration : FetchConfiguration :=
  { handleUnmockedRequests := .throwError
    responseDelay := 0
    autoReplaceFetch := true
    logging := true }

/-- Raw input of `setFetchConfiguration`. Absent members are `none`; the
    `handleUnmockedRequests` member keeps its runtime type (a string), so
    invalid enumeration values are expressible. -/
structure SetConfigurationOptions where
  handleUnmockedRequests : Option String
  responseDelay : Option Int
  autoReplaceFetch : Option Bool
  logging : Option Bool

/-- The three valid `handleUnmockedRequests` strings (source line 430). -/
def unmockedRequestHandling : List String := ["pass-through", "return-404", "throw-error"]

/-- The policy a valid configuration string denotes. -/
def parsePolicy (s : String) : UnmockedPolicy :=
  if s == "pass-through" then .passThrough
  else if s == "return-404" then .return404
  else .throwError

/-- The three trailing field updates of `setFetchConfiguration`: the delay
    applies only when at least 0 (in JS, `undefined >= 0` is false), the
    boolean members only when boolean-typed. -/
def applyRemainingConfiguration (options : SetConfigurationOptions)
    (c : FetchConfiguration) : FetchConfiguration :=
  let c := match options.responseDelay with
    | some d => if 0 ≤ d then { c with responseDelay := d } else c
    | none => c
  let c := match options.autoReplaceFetch with
    | some b => { c with autoReplaceFetch := b }
    | none => c
  match options.logging with
  | some b => { c with logging := b }
  | none => c

/-- Models `setFetchConfiguration` (source lines 427-445). The configuration
    is mutated field by field, so the first component carries it as mutated
    up to a thrown validation error (the throw precedes every assignment).
    A falsy `handleUnmockedRequests` — absent, or the empty string — skips
    both the validation and the assignment. -/
def setFetchConfiguration (options : SetConfigurationOptions)
    (c : FetchConfiguration) : FetchConfiguration × Except String Unit :=
  match options.handleUnmockedRequests with
  | none => (applyRemainingConfiguration options c, .ok ())
  | some s =>
    if s == "" then (applyRemainingConfiguration options c, .ok ())
    else if unmockedRequestHandling.contains s then
      (applyRemainingConfiguration options { c with handleUnmockedRequests := parsePolicy s },
       .ok ())
    else (c, .error ("Invalid handleUnmockedRequests: " ++ s))

/-! ## Mock registry (source lines 471-597) -/

/-- The `url` member of a handler or specification: a pattern string or a
    prebuilt `URLPattern` instance (source type `string | URLPattern`).
    Equality mirrors JS `===`: value equality on strings, reference
    identity on pattern objects. -/
inductive URLSpec where
  | str (s : String)
  | pattern (p : PatternRef)
deriving DecidableEq

/-- External platform behaviour: the `URLPattern` compiler and matcher, the
    `URL` parser, and the `Request` constructor. Failures carry the
    platform error message. -/
structure FetchEnv where
  compile : String → Except String PatternRef
  exec : PatternRef → String → Option URLPatternResult
  parseURL : String → Except String URL
  newRequest : String → RequestInit → Except String Request

/-- A fetch specification as supplied by the caller (source lines 471-482);
    absent members are `none`. The in-place normalization of `method` is
    modelled by the operations returning the updated object. -/
structure FetchSpecification where
  url : Option URLSpec
  method : Option String
deriving DecidableEq

/-- JS falsiness of the `url` member (`if (!url) throw`): absent, or the
    empty pattern string. -/
def urlIsMissing : Option URLSpec → Bool
  | none => true
  | some (.str s) => s == ""
  | some (.pattern _) => false

/-- Context handed to a response callback (source fields `match`, `url` and
    `query`; the query string models the `URLSearchParams` object built
    from `urlObject.search`). -/
structure CallbackOptions where
  matchResult : URLPatternResult
  url : URL
  query : String

/-- Simplified response description `{status?, headers?, body?}`. -/
structure SimpleResponse where
  status : Option Int
  headers : Option HeadersRep
  body : Option BodyValue

/-- The `response` member of a handler: a simplified description, a
    prebuilt `Response`, or a callback (modelled as a pure function whose
    `Except` failure is a synchronous or asynchronous throw). -/
inductive HandlerResponse where
  | simple (r : SimpleResponse)
  | response (r : Response)
  | callback (f : Request → CallbackOptions → Except String (SimpleResponse ⊕ Response))

/-- A handler as supplied to `mockFetch` (source lines 497-509). -/
structure FetchHandler where
  url : Option URLSpec
  method : Option String
  responseDelay : Option Int
  response : Option HandlerResponse

/-- A handler as it lives in the registry: the caller object after
    `normalizeHandler` mutated it — normalized `method`, plus the compiled
    pattern cached under the private `patternSymbol` key. -/
structure RegisteredHandler where
  url : URLSpec
  method : String
  responseDelay : Option Int
  response : HandlerResponse
  pattern : PatternRef

/-- Models `normalizeMethod` (source lines 513-515): uppercase the method,
    defaulting a falsy one (absent or empty) to GET. -/
def normalizeMethod : Option String → String
  | some m => if m == "" then "GET" else jsToUpperCase m
  | none => "GET"

/-- The url and method destructured by callers of `normalizeSpecification`. -/
structure NormalizedSpecification where
  url : URLSpec
  method : String
deriving DecidableEq

/-- Models `normalizeSpecification` (source lines 517-522): throw on a
    falsy `url` (absent, or the empty string), otherwise normalize the
    method, writing it back into the specification object. -/
def normalizeSpecification (s : FetchSpecification) :
    Except String NormalizedSpecification :=
  match s.url with
  | none => .error "Mocked fetch is missing \"url\""
  | some (.str u) =>
    if u == "" then .error "Mocked fetch is missing \"url\""
    else .ok { url := .str u, method := normalizeMethod s.method }
  | some (.pattern p) => .ok { url := .pattern p, method := normalizeMethod s.method }

/-- The caller's specification object after its in-place normalization
    (the source sets `specification.method` and leaves `url` untouched). -/
def writeBackSpecification (s : FetchSpecification)
    (n : NormalizedSpecification) : FetchSpecification :=
  { url := s.url, method := some n.method }

/-- Models `normalizeHandler` (source lines 524-532): normalize the
    specification part, require `response`, then compile the pattern (a
    pattern string goes through `new URLPattern`, which may throw) and
    cache it on the handler. -/
def normalizeHandler (env : FetchEnv) (h : FetchHandler) :
    Except String RegisteredHandler :=
  match normalizeSpecification { url := h.url, method := h.method } with
  | .error e => .error e
  | .ok n =>
    match h.response with
    | none => .error "Mocked fetch is missing \"response\""
    | some resp =>
      match n.url with
      | .pattern p =>
        .ok { url := n.url, method := n.method, responseDelay := h.responseDelay
              response := resp, pattern := p }
      | .str s =>
        match env.compile s with
        | .error e => .error e
        | .ok p =>
          .ok { url := n.url, method := n.method, responseDelay := h.responseDelay
                response := resp, pattern := p }

/-- Whether `globalThis.fetch` is the captured original or the substitute
    `mockedFetch`. -/
inductive FetchBinding where
  | original
  | mocked
deriving DecidableEq

/-- The module-level mutable state: the configuration singleton, the
    ordered handler registry, and the global fetch binding. -/
structure MockFetchState where
  configuration : FetchConfiguration
  fetchHandlers : List RegisteredHandler
  fetchBinding : FetchBinding

/-- The state at module load: defaults, empty registry, original fetch. -/
def initialState : MockFetchState :=
  { configuration := defaultConfiguration, fetchHandlers := [], fetchBinding := .original }

/-- Models `isFetchReplaced` (source lines 733-735): a reference identity
    check of the global binding against `mockedFetch`. -/
def isFetchReplaced (st : MockFetchState) : Bool := st.fetchBinding == .mocked

/-- Models `replaceFetch` (source lines 740-742). -/
def replaceFetch (st : MockFetchState) : MockFetchState :=
  { st with fetchBinding := .mocked }

/-- Models `restoreFetch` (source lines 747-749). -/
def restoreFetch (st : MockFetchState) : MockFetchState :=
  { st with fetchBinding := .original }

/-- Models `findFetchHandler` (source lines 534-540): index of the first
    registry entry whose `url` and `method` are identical (JS `===`),
    or -1. -/
def findFetchHandler (handlers : List RegisteredHandler)
    (url : URLSpec) (method : String) : Int :=
  match handlers.findIdx? (fun handler => handler.url == url && handler.method == method) with
  | some i => (i : Int)
  | none => -1

/-- Models `includesMockedFetch` (source lines 545-549). The second
    component is the caller's specification object after its in-place
    normalization. -/
def includesMockedFetch (specification : FetchSpecification)
    (handlers : List RegisteredHandler) : Except String (Bool × FetchSpecification) :=
  match normalizeSpecification specification with
  | .error e => .error e
  | .ok n =>
    .ok (decide (0 ≤ findFetchHandler handlers n.url n.method),
         writeBackSpecification specification n)

/-- Models `mockFetch` (source lines 554-561): normalize the handler
    (mutating the caller's object), append it to the registry, and
    auto-replace the global fetch when configured. All throws precede the
    registry push, so a failing call returns the state unchanged. -/
def mockFetch (env : FetchEnv) (handler : FetchHandler) (st : MockFetchState) :
    MockFetchState × Except String RegisteredHandler :=
  match normalizeHandler env handler with
  | .error e => (st, .error e)
  | .ok reg =>
    let st := { st with fetchHandlers := st.fetchHandlers ++ [reg] }
    let st := if st.configuration.autoReplaceFetch then replaceFetch st else st
    (st, .ok reg)

/-- Models `unmockFetch` (current source, lines 566-575): remove the first
    identical entry; with `autoReplaceFetch` set, the global fetch is
    restored on every successful removal — the `fetchHandlers.length === 0`
    guard of the previous revision is absent here. The second component is
    the mutated caller object (the source itself returns `undefined`). -/
def unmockFetch (specification : FetchSpecification) (st : MockFetchState) :
    MockFetchState × Except String FetchSpecification :=
  match normalizeSpecification specification with
  | .error e => (st, .error e)
  | .ok n =>
    let index := findFetchHandler st.fetchHandlers n.url n.method
    if 0 ≤ index then
      let st := { st with fetchHandlers := st.fetchHandlers.eraseIdx index.toNat }
      let st := if st.configuration.autoReplaceFetch then restoreFetch st else st
      (st, .ok (writeBackSpecification specification n))
    else (st, .ok (writeBackSpecification specification n))

/-- Models `unmockAllFetches` (source lines 580-586): clear the registry
    and, when configured, restore the global fetch. -/
def unmockAllFetches (st : MockFetchState) : MockFetchState :=
  let st := { st with fetchHandlers := [] }
  if st.configuration.autoReplaceFetch then restoreFetch st else st

/-- Models `matchFetchHandler` (source lines 588-597): walk the registry in
    registration order, skip entries whose method differs, and return the
    first handler whose compiled pattern matches the url, with the match
    result. -/
def matchFetchHandler (env : FetchEnv) (handlers : List RegisteredHandler)
    (url method : String) : Option (RegisteredHandler × URLPatternResult) :=
  match handlers with
  | [] => none
  | handler :: rest =>
    if handler.method != method then matchFetchHandler env rest url method
    else
      match env.exec handler.pattern url with
      | some m => some (handler, m)
      | none => matchFetchHandler env rest url method

/-- The matching predicate `matchFetchHandler` walks the registry with:
    equal method, and the compiled pattern matches the url. -/
def handlerMatches (env : FetchEnv) (handler : RegisteredHandler)
    (url method : String) : Bool :=
  handler.method == method && (env.exec handler.pattern url).isSome

/-! ## Response synthesis engine (source lines 599-728) -/

/-- Models `normalizeRequestURL` (source lines 599-608): extract a
    `Request` if one was passed, and resolve the url string. -/
def normalizeRequestURL (url : RequestInfo) : Option Request × String :=
  match url with
  | .request r => (some r, r.url)
  | .url u => (none, u.href)
  | .str s => (none, s)

/-- Models `normalizeRequestOptions` (source lines 610-614): spread-copy
    the options, normalizing the method. -/
def normalizeRequestOptions (requestOptions : Option RequestInit) : RequestInit :=
  match requestOptions with
  | some o => { o with method := some (normalizeMethod o.method) }
  | none => { method := some (normalizeMethod none), rest := [] }

/-- Models `canConstructResponseWith` (source lines 628-640): null, strings
    and instances of the supported buffer and stream types are acceptable
    to the `Response` constructor; plain keyed data is not. -/
def canConstructResponseWith (body : Option BodyValue) : Bool :=
  match body with
  | none => true
  | some (.str _) => true
  | some (.binaryBuffer _) => true
  | some (.stream _) => true
  | some (.json _) => false

/-- JS property assignment `headers[name] = value` on an object literal:
    overwrite an identical key, otherwise append. -/
def setObjectMember (l : List (String × String)) (name value : String) :
    List (String × String) :=
  if l.any (fun p => p.1 == name) then
    l.map (fun p => if p.1 == name then (p.1, value) else p)
  else l ++ [(name, value)]

/-- Models `optionallyAddJSONContentType` (source lines 646-677): inject
    `Content-Type: application/json` unless a content-type header is
    already present, checking case-insensitively in whichever of the three
    representations was supplied (absent headers become an object literal
    with just the content type). -/
def optionallyAddJSONContentType (responseOptions : ResponseInit) : ResponseInit :=
  match responseOptions.headers with
  | none =>
    { responseOptions with headers := some (.object [("Content-Type", "application/json")]) }
  | some (.collection h) =>
    if (headersGet h "Content-Type").isNone then
      { responseOptions with
        headers := some (.collection (headersSet h "Content-Type" "application/json")) }
    else responseOptions
  | some (.pairs l) =>
    if l.any (fun p => jsToLowerCase p.1 == "content-type") then responseOptions
    else { responseOptions with headers := some (.pairs (l ++ [("Content-Type", "application/json")])) }
  | some (.object l) =>
    if l.any (fun p => jsToLowerCase p.1 == "content-type") then responseOptions
    else { responseOptions with
           headers := some (.object (setObjectMember l "Content-Type" "application/json")) }

/-- Whether a content-type header is present (case-insensitively) in a
    supplied headers member; the specification's presence notion. -/
def hasContentType : Option HeadersRep → Bool
  | none => false
  | some (.object l) => l.any (fun p => jsToLowerCase p.1 == "content-type")
  | some (.pairs l) => l.any (fun p => jsToLowerCase p.1 == "content-type")
  | some (.collection h) => (headersGet h "Content-Type").isSome

/-- Models `JSON.stringify` applied to a response body. The branches other
    than `json` are unreachable behind `canConstructResponseWith`. -/
def stringifyBody : Option BodyValue → String
  | some (.json j) => j.stringify
  | some (.str s) => Json.stringify (.str s)
  | some (.binaryBuffer _) => "{}"
  | some (.stream _) => "{}"
  | none => "null"

/-- Final synthesis step of `mockedFetch` (source lines 715-721):
    destructure `{ body, ...responseOptions }`; serialize a body the
    `Response` constructor cannot accept to its JSON text, adding the
    content type; construct the `Response`. -/
def synthesizeResponse (response : SimpleResponse) : Response :=
  let body := response.body
  let responseOptions : ResponseInit := { status := response.status, headers := response.headers }
  if canConstructResponseWith body then mkResponse body responseOptions
  else mkResponse (some (.str (stringifyBody body))) (optionallyAddJSONContentType responseOptions)

/-- Resolution step of `mockedFetch` (source lines 702-711): a callback is
    invoked with the request and the match context (building the context
    parses the url, which may throw); a static descriptor is used
    directly. -/
def resolveResponse (env : FetchEnv) (handler : RegisteredHandler) (request : Request)
    (m : URLPatternResult) (url : String) : Except String (SimpleResponse ⊕ Response) :=
  match handler.response with
  | .simple r => .ok (.inl r)
  | .response r => .ok (.inr r)
  | .callback f =>
    match env.parseURL url with
    | .error e => .error e
    | .ok urlObject =>
      f request { matchResult := m, url := urlObject, query := urlObject.search }

/-- Observable outcome of a `mockedFetch` call. `passedThrough u o r`
    records that the captured original fetch was invoked as
    `originalFetch(u, o)` and its result `r` returned unmodified. -/
inductive FetchOutcome where
  | response (r : Response)
  | thrown (message : String)
  | passedThrough (u : RequestInfo) (o : RequestInit) (r : Response)

/-- Result of a `mockedFetch` call: the milliseconds handed to
    `waitForDelay` (0 when no handler matched: none of the unmatched
    branches wait), and the outcome. -/
structure FetchRun where
  delay : Int
  outcome : FetchOutcome

/-- Models `mockedFetch` (current source, lines 679-728), the substitute
    installed on the global fetch binding. `originalFetch` is the function
    captured at module load. Console logging has no bearing on the
    returned value and is not modelled. -/
def mockedFetch (env : FetchEnv) (configuration : FetchConfiguration)
    (fetchHandlers : List RegisteredHandler)
    (originalFetch : RequestInfo → RequestInit → Response)
    (urlOrRequest : RequestInfo) (requestOptions : Option RequestInit) : FetchRun :=
  let request := (normalizeRequestURL urlOrRequest).1
  let url := (normalizeRequestURL urlOrRequest).2
  let requestOptions := normalizeRequestOptions requestOptions
  let method := requestOptions.method.getD "GET"
  match matchFetchHandler env fetchHandlers url method with
  | none =>
    match configuration.handleUnmockedRequests with
    | .passThrough =>
      { delay := 0
        outcome := .passedThrough urlOrRequest requestOptions
          (originalFetch urlOrRequest requestOptions) }
    | .throwError =>
      { delay := 0, outcome := .thrown ("Fetch not mocked: " ++ method ++ " " ++ url) }
    | .return404 =>
      { delay := 0, outcome := .response (mkResponse none { status := some 404, headers := none }) }
  | some (handler, m) =>
    let responseDelay := handler.responseDelay.getD configuration.responseDelay
    match (match request with | some r => Except.ok r | none => env.newRequest url requestOptions) with
    | .error e => { delay := responseDelay, outcome := .thrown e }
    | .ok req =>
      match resolveResponse env handler req m url with
      | .error e => { delay := responseDelay, outcome := .thrown e }
      | .ok (.inr r) => { delay := responseDelay, outcome := .response r }
      | .ok (.inl simpleResponse) =>
        { delay := responseDelay, outcome := .response (synthesizeResponse simpleResponse) }

/-! ## Concrete fixtures for witnesses and counterexamples -/

/-- A concrete platform environment: compilation always yields pattern 0;
    pattern 0 matches exactly the url `http://h/x`, every other pattern
    reference matches any url (standing for a catch-all pattern). -/
def sampleEnv : FetchEnv :=
  { compile := fun _ => .ok 0
    exec := fun p u =>
      if p == 0 then (if u == "http://h/x" then some { pathnameGroups := [] } else none)
      else some { pathnameGroups := [("rest", u)] }
    parseURL := fun s => .ok { href := s, search := "" }
    newRequest := fun u o => .ok { url := u, options := o } }

/-- An empty simplified response, as in the library's own tests
    (`response: {}`). -/
def sampleResponse : HandlerResponse :=
  .simple { status := none, headers := none, body := none }

/-- A registered handler whose pattern 0 matches only `http://h/x`. -/
def sampleHandlerA : RegisteredHandler :=
  { url := .str "http://h/x", method := "GET", responseDelay := none
    response := sampleResponse, pattern := 0 }

/-- A later-registered handler whose pattern 1 matches every url. -/
def sampleHandlerB : RegisteredHandler :=
  { url := .pattern 1, method := "GET", responseDelay := none
    response := sampleResponse, pattern := 1 }

/-- A raw handler for registration fixtures. -/
def sampleRawHandlerA : FetchHandler :=
  { url := some (.str "http://h/a"), method := none, responseDelay := none
    response := some sampleResponse }

/-- A second raw handler for registration fixtures. -/
def sampleRawHandlerB : FetchHandler :=
  { url := some (.str "http://h/b"), method := none, responseDelay := none
    response := some sampleResponse }

/-- A registered handler answering with a plain-object JSON body
    (`response: { body: { a: 1 } }` over pattern 0). -/
def jsonBodyHandler : RegisteredHandler :=
  { url := .str "http://h/x", method := "GET", responseDelay := none
    response := .simple { status := none, headers := none
                          body := some (.json (.obj [("a", .num 1)])) }
    pattern := 0 }

/-! ## Foundational lemmas: characters and case mapping -/

theorem char_toNat_ofNat (n : Nat) (hv : n.isValidChar) : (Char.ofNat n).toNat = n := by
  simp only [Char.ofNat, dif_pos hv]
  rfl

theorem char_eq_of_toNat_eq {a b : Char} (h : a.toNat = b.toNat) : a = b :=
  Char.ext (UInt32.toNat.inj h)

theorem toNat_jsCharToUpper (c : Char) :
    (jsCharToUpper c).toNat =
      if 97 ≤ c.toNat ∧ c.toNat ≤ 122 then c.toNat - 32 else c.toNat := by
  unfold jsCharToUpper
  split
  · exact char_toNat_ofNat _ (Or.inl (by omega))
  · rfl

theorem toNat_jsCharToLower (c : Char) :
    (jsCharToLower c).toNat =
      if 65 ≤ c.toNat ∧ c.toNat ≤ 90 then c.toNat + 32 else c.toNat := by
  unfold jsCharToLower
  split
  · exact char_toNat_ofNat _ (Or.inl (by omega))
  · rfl

theorem jsCharToUpper_jsCharToLower (c : Char) :
    jsCharToUpper (jsCharToLower c) = jsCharToUpper c := by
  apply char_eq_of_toNat_eq
  rw [toNat_jsCharToUpper, toNat_jsCharToUpper, toNat_jsCharToLower]
  split_ifs <;> omega

theorem jsCharToUpper_idem (c : Char) :
    jsCharToUpper (jsCharToUpper c) = jsCharToUpper c := by
  apply char_eq_of_toNat_eq
  rw [toNat_jsCharToUpper, toNat_jsCharToUpper]
  split_ifs <;> omega

theorem jsToUpperCase_jsToLowerCase (s : String) :
    jsToUpperCase (jsToLowerCase s) = jsToUpperCase s := by
  unfold jsToUpperCase jsToLowerCase
  apply congrArg String.mk
  rw [List.map_map]
  exact List.map_congr_left (fun c _ => jsCharToUpper_jsCharToLower c)

theorem jsToUpperCase_idempotent (s : String) :
    jsToUpperCase (jsToUpperCase s) = jsToUpperCase s := by
  unfold jsToUpperCase
  apply congrArg String.mk
  rw [List.map_map]
  exact List.map_congr_left (fun c _ => jsCharToUpper_idem c)

theorem jsToLowerCase_empty_iff (s : String) : jsToLowerCase s = "" ↔ s = "" := by
  unfold jsToLowerCase
  rw [String.ext_iff, String.ext_iff]
  constructor
  · intro h
    exact List.map_eq_nil_iff.mp h
  · intro h
    rw [h]
    rfl

theorem jsToUpperCase_empty_iff (s : String) : jsToUpperCase s = "" ↔ s = "" := by
  unfold jsToUpperCase
  rw [String.ext_iff, String.ext_iff]
  constructor
  · intro h
    exact List.map_eq_nil_iff.mp h
  · intro h
    rw [h]
    rfl

/-! ## Lemmas about method normalization -/

theorem normalizeMethod_ne_empty (m : Option String) : normalizeMethod m ≠ "" := by
  cases m with
  | none => simp [normalizeMethod]
  | some s =>
    simp only [normalizeMethod]
    split
    · decide
    · rename_i hs
      intro hu
      exact hs (by simp [(jsToUpperCase_empty_iff s).mp hu])

theorem normalizeMethod_of_lower (m : Option String) :
    normalizeMethod (some (jsToLowerCase (normalizeMethod m))) = normalizeMethod m := by
  have hne : normalizeMethod m ≠ "" := normalizeMethod_ne_empty m
  have hlne : jsToLowerCase (normalizeMethod m) ≠ "" :=
    fun h => hne ((jsToLowerCase_empty_iff _).mp h)
  show (if jsToLowerCase (normalizeMethod m) == "" then "GET"
        else jsToUpperCase (jsToLowerCase (normalizeMethod m))) = normalizeMethod m
  rw [if_neg (by simpa using hlne), jsToUpperCase_jsToLowerCase]
  match m with
  | none => rfl
  | some s =>
    show jsToUpperCase (if s == "" then "GET" else jsToUpperCase s)
        = (if s == "" then "GET" else jsToUpperCase s)
    split
    · rfl
    · exact jsToUpperCase_idempotent s

/-! ## Lemmas about registry lookup -/

theorem findFetchHandler_nonneg_iff (handlers : List RegisteredHandler)
    (url : URLSpec) (method : String) :
    0 ≤ findFetchHandler handlers url method
      ↔ ∃ g ∈ handlers, g.url = url ∧ g.method = method := by
  unfold findFetchHandler
  cases hfi : List.findIdx? (fun handler => handler.url == url && handler.method == method) handlers with
  | none =>
    have hiff : (List.findIdx?
          (fun handler => handler.url == url && handler.method == method) handlers).isSome
        = handlers.any (fun handler => handler.url == url && handler.method == method) :=
      List.findIdx?_isSome
    rw [hfi] at hiff
    simp only [Option.isSome_none] at hiff
    constructor
    · intro h
      have hlt : ¬ ((0 : Int) ≤ -1) := by decide
      exact absurd h hlt
    · rintro ⟨g, hg, hu, hm⟩
      have hany : handlers.any (fun handler => handler.url == url && handler.method == method) = true :=
        List.any_eq_true.mpr ⟨g, hg, by simp [hu, hm]⟩
      rw [← hiff] at hany
      cases hany
  | some i =>
    have hiff : (List.findIdx?
          (fun handler => handler.url == url && handler.method == method) handlers).isSome
        = handlers.any (fun handler => handler.url == url && handler.method == method) :=
      List.findIdx?_isSome
    rw [hfi] at hiff
    simp only [Option.isSome_some] at hiff
    obtain ⟨g, hg, hp⟩ := List.any_eq_true.mp hiff.symm
    simp only [Bool.and_eq_true, beq_iff_eq] at hp
    refine ⟨fun _ => ⟨g, hg, hp⟩, fun _ => ?_⟩
    show (0 : Int) ≤ (i : Nat)
    exact Int.natCast_nonneg i

/-! ## Lemmas about normalization and registration -/

theorem normalizeSpecification_of_present (s : FetchSpecification)
    (hurl : urlIsMissing s.url = false) :
    ∃ u, s.url = some u
      ∧ normalizeSpecification s = .ok { url := u, method := normalizeMethod s.method } := by
  cases hs : s.url with
  | none => rw [hs] at hurl; exact absurd hurl (by simp [urlIsMissing])
  | some u =>
    cases u with
    | str str =>
      rw [hs] at hurl
      simp only [urlIsMissing] at hurl
      refine ⟨.str str, rfl, ?_⟩
      unfold normalizeSpecification
      rw [hs]
      simp [hurl]
    | pattern p =>
      refine ⟨.pattern p, rfl, ?_⟩
      unfold normalizeSpecification
      rw [hs]

theorem normalizeSpecification_ok (s : FetchSpecification) (n : NormalizedSpecification)
    (hok : normalizeSpecification s = .ok n) :
    urlIsMissing s.url = false ∧ s.url = some n.url
      ∧ n.method = normalizeMethod s.method := by
  unfold normalizeSpecification at hok
  split at hok
  · cases hok
  · rename_i u heq
    split at hok
    · cases hok
    · rename_i hne
      cases hok
      refine ⟨?_, ?_, rfl⟩
      · rw [heq]
        simpa [urlIsMissing] using hne
      · rw [heq]
  · rename_i p heq
    cases hok
    exact ⟨by rw [heq]; rfl, by rw [heq], rfl⟩

theorem normalizeHandler_ok (env : FetchEnv) (h : FetchHandler) (reg : RegisteredHandler)
    (hok : normalizeHandler env h = .ok reg) :
    urlIsMissing h.url = false ∧ h.url = some reg.url
      ∧ reg.method = normalizeMethod h.method := by
  unfold normalizeHandler at hok
  split at hok
  · cases hok
  · rename_i n heq
    obtain ⟨hmiss, hurl, hmeth⟩ := normalizeSpecification_ok _ _ heq
    split at hok
    · cases hok
    · split at hok
      · cases hok
        exact ⟨hmiss, hurl, hmeth⟩
      · split at hok
        · cases hok
        · cases hok
          exact ⟨hmiss, hurl, hmeth⟩

theorem mockFetch_ok_parts (env : FetchEnv) (h : FetchHandler) (st : MockFetchState)
    (reg : RegisteredHandler) (hok : (mockFetch env h st).2 = .ok reg) :
    normalizeHandler env h = .ok reg
      ∧ (mockFetch env h st).1.fetchHandlers = st.fetchHandlers ++ [reg] := by
  have hn2 : normalizeHandler env h = .ok reg := by
    unfold mockFetch at hok
    split at hok
    · simp at hok
    · rename_i reg2 heq
      have h2 : Except.ok (ε := String) reg2 = .ok reg := by simpa using hok
      cases h2
      exact heq
  refine ⟨hn2, ?_⟩
  unfold mockFetch
  simp only [hn2]
  split <;> rfl

/-! ## Claim C3 (code bug in the current `unmockFetch`) -/

/-- Claim C3, evaluated at the failing input: with the default
    configuration, register two handlers (fetch gets replaced), then
    unregister the first. One handler remains registered, yet the current
    `unmockFetch` restores the global fetch on every removal — it lost the
    `fetchHandlers.length === 0` guard of the earlier revision — so
    `isFetchReplaced` is already false, where the claim (and the
    `autoReplaceFetch` documentation, which promises restoration when "the
    last one" is unregistered) requires it to stay true. -/
theorem unmockFetch_restores_despite_remaining_handler :
    (let st2 := (mockFetch sampleEnv sampleRawHandlerB
                  (mockFetch sampleEnv sampleRawHandlerA initialState).1).1
     let st3 := (unmockFetch { url := some (.str "http://h/a"), method := none } st2).1
     isFetchReplaced st2 = true
       ∧ st3.fetchHandlers.length = 1
       ∧ isFetchReplaced st3 = false) :=
  ⟨rfl, rfl, rfl⟩

/-! ## Claim C9 (registry operations leave the binding alone without
    `autoReplaceFetch`) -/

/-- Claim C9: whenever `autoReplaceFetch` is false, `mockFetch`,
    `unmockFetch` and `unmockAllFetches` never change the global fetch
    binding: `isFetchReplaced` answers the same after the call as before,
    for every registry state and input. -/
theorem registry_ops_keep_binding_without_autoReplace
    (env : FetchEnv) (h : FetchHandler) (spec : FetchSpecification)
    (st : MockFetchState) (hauto : st.configuration.autoReplaceFetch = false) :
    isFetchReplaced (mockFetch env h st).1 = isFetchReplaced st
      ∧ isFetchReplaced (unmockFetch spec st).1 = isFetchReplaced st
      ∧ isFetchReplaced (unmockAllFetches st) = isFetchReplaced st := by
  refine ⟨?_, ?_, ?_⟩
  · unfold mockFetch
    cases hn : normalizeHandler env h with
    | error e => rfl
    | ok reg => simp [isFetchReplaced, hauto]
  · unfold unmockFetch
    cases hn : normalizeSpecification spec with
    | error e => rfl
    | ok n =>
      simp only
      split
      · simp [isFetchReplaced, hauto]
      · rfl
  · unfold unmockAllFetches
    simp [isFetchReplaced, hauto]

/-- Witness for claim C9 at a concrete state: a one-handler registry with
    `autoReplaceFetch` disabled and the substitute installed by hand. -/
theorem registry_ops_keep_binding_witness :
    (let st : MockFetchState :=
      { configuration := { defaultConfiguration with autoReplaceFetch := false }
        fetchHandlers := [sampleHandlerA], fetchBinding := .mocked }
     isFetchReplaced (mockFetch sampleEnv sampleRawHandlerB st).1 = isFetchReplaced st
       ∧ isFetchReplaced (unmockFetch { url := some (.str "http://h/x"), method := none } st).1
           = isFetchReplaced st
       ∧ isFetchReplaced (unmockAllFetches st) = isFetchReplaced st) :=
  registry_ops_keep_binding_without_autoReplace sampleEnv sampleRawHandlerB
    { url := some (.str "http://h/x"), method := none } _ rfl

/-! ## Claim C10 (in-place normalization of the caller's objects) -/

/-- Claim C10: `includesMockedFetch`, `unmockFetch` (and `mockFetch`)
    mutate the caller-supplied object in place — modelled by the returned
    object: after a call whose `url` is present, the object's method field
    holds the upper-cased supplied method, or GET when none was supplied. -/
theorem operations_write_back_normalized_method
    (env : FetchEnv) (spec : FetchSpecification) (h : FetchHandler)
    (handlers : List RegisteredHandler) (st : MockFetchState)
    (hurl : urlIsMissing spec.url = false) :
    (∃ b, includesMockedFetch spec handlers
        = .ok (b, { url := spec.url, method := some (normalizeMethod spec.method) })) ∧
    ((unmockFetch spec st).2
        = .ok { url := spec.url, method := some (normalizeMethod spec.method) }) ∧
    (∀ reg, (mockFetch env h st).2 = .ok reg → reg.method = normalizeMethod h.method) ∧
    (spec.method = none → normalizeMethod spec.method = "GET") ∧
    (∀ m, spec.method = some m → m ≠ "" → normalizeMethod spec.method = jsToUpperCase m) := by
  obtain ⟨u, hu, hnorm⟩ := normalizeSpecification_of_present spec hurl
  refine ⟨?_, ?_, ?_, ?_, ?_⟩
  · unfold includesMockedFetch
    rw [hnorm]
    exact ⟨_, rfl⟩
  · unfold unmockFetch
    rw [hnorm]
    simp only
    split <;> rfl
  · intro reg hok
    exact ((normalizeHandler_ok env h reg (mockFetch_ok_parts env h st reg hok).1).2).2.symm ▸ rfl
  · intro hm
    rw [hm]
    rfl
  · intro m hm hne
    rw [hm]
    show (if m == "" then "GET" else jsToUpperCase m) = jsToUpperCase m
    rw [if_neg (by simpa using hne)]

/-- Witness for claim C10 at concrete inputs: a specification with the
    lower-case method `post` comes back with method `POST`, and one with
    no method comes back with `GET`. -/
theorem operations_write_back_normalized_method_witness :
    (∃ b, includesMockedFetch { url := some (.str "http://h/x"), method := some "post" } []
        = .ok (b, { url := some (.str "http://h/x"), method := some "POST" }))
      ∧ (unmockFetch { url := some (.str "http://h/x"), method := none } initialState).2
          = .ok { url := some (.str "http://h/x"), method := some "GET" } := by
  obtain ⟨⟨b, hb⟩, -, -, -, -⟩ := operations_write_back_normalized_method sampleEnv
    { url := some (.str "http://h/x"), method := some "post" } sampleRawHandlerA [] initialState rfl
  obtain ⟨-, hun, -, -, -⟩ := operations_write_back_normalized_method sampleEnv
    { url := some (.str "http://h/x"), method := none } sampleRawHandlerA [] initialState rfl
  exact ⟨⟨b, hb⟩, hun⟩

/-! ## Claim C7 (registration fails exactly on missing url or response) -/

/-- Claim C7: `mockFetch` fails exactly when the supplied handler misses
    its `url` or its `response` (for a pattern that compiles); a failing
    call leaves the whole state — in particular the registry — unchanged,
    and a successful one appends the normalized handler to the end of the
    ordered list. -/
theorem mockFetch_fails_iff_missing_url_or_response
    (env : FetchEnv) (h : FetchHandler) (st : MockFetchState)
    (hcompile : ∀ s, h.url = some (.str s) → s ≠ "" → ∃ p, env.compile s = .ok p) :
    ((∃ e, (mockFetch env h st).2 = .error e)
        ↔ (urlIsMissing h.url = true ∨ h.response = none)) ∧
    ((∃ e, (mockFetch env h st).2 = .error e) → (mockFetch env h st).1 = st) ∧
    (∀ reg, (mockFetch env h st).2 = .ok reg →
       (mockFetch env h st).1.fetchHandlers = st.fetchHandlers ++ [reg]) := by
  have hnorm : (∃ e, normalizeHandler env h = .error e)
      ↔ (urlIsMissing h.url = true ∨ h.response = none) := by
    constructor
    · rintro ⟨e, he⟩
      by_contra hc
      push_neg at hc
      obtain ⟨hmiss, hresp⟩ := hc
      have hmiss2 : urlIsMissing h.url = false := by
        cases hv : urlIsMissing h.url
        · rfl
        · exact absurd hv hmiss
      obtain ⟨u, hu, hn⟩ := normalizeSpecification_of_present
        { url := h.url, method := h.method } hmiss2
      have hu2 : h.url = some u := hu
      cases hr : h.response with
      | none => exact hresp hr
      | some resp =>
        unfold normalizeHandler at he
        rw [hn] at he
        simp only [hr] at he
        cases u with
        | pattern p => simp at he
        | str s =>
          have hne : s ≠ "" := by
            intro hempty
            rw [hu2, hempty] at hmiss2
            simp [urlIsMissing] at hmiss2
          obtain ⟨p, hp⟩ := hcompile s hu2 hne
          simp only [hp] at he
          simp at he
    · intro hcases
      cases hu : h.url with
      | none =>
        refine ⟨"Mocked fetch is missing \"url\"", ?_⟩
        unfold normalizeHandler normalizeSpecification
        simp [hu]
      | some u =>
        cases u with
        | str s =>
          by_cases hs : s == ""
          · refine ⟨"Mocked fetch is missing \"url\"", ?_⟩
            unfold normalizeHandler normalizeSpecification
            simp [hu, hs]
          · rcases hcases with hmiss | hresp
            · rw [hu] at hmiss
              simp only [urlIsMissing] at hmiss
              exact absurd hmiss (by simpa using hs)
            · refine ⟨"Mocked fetch is missing \"response\"", ?_⟩
              unfold normalizeHandler normalizeSpecification
              simp [hu, hs, hresp]
        | pattern p =>
          rcases hcases with hmiss | hresp
          · rw [hu] at hmiss
            simp [urlIsMissing] at hmiss
          · refine ⟨"Mocked fetch is missing \"response\"", ?_⟩
            unfold normalizeHandler normalizeSpecification
            simp [hu, hresp]
  refine ⟨?_, ?_, fun reg hok => (mockFetch_ok_parts env h st reg hok).2⟩
  · rw [← hnorm]
    unfold mockFetch
    constructor
    · rintro ⟨e, he⟩
      cases hn : normalizeHandler env h with
      | error e2 => exact ⟨e2, rfl⟩
      | ok reg =>
        rw [hn] at he
        simp at he
    · rintro ⟨e, he⟩
      rw [he]
      exact ⟨e, rfl⟩
  · rintro ⟨e, he⟩
    unfold mockFetch at he ⊢
    cases hn : normalizeHandler env h with
    | error e2 => rfl
    | ok reg =>
      rw [hn] at he
      simp at he

/-- Witness for claim C7: a handler missing its response is rejected with
    the registry untouched; a complete handler is appended at the end. -/
theorem mockFetch_fails_iff_missing_witness :
    ((∃ e, (mockFetch sampleEnv
        { url := some (.str "http://h/a"), method := none
          responseDelay := none, response := none } initialState).2 = .error e)
      ∧ (mockFetch sampleEnv
          { url := some (.str "http://h/a"), method := none
            responseDelay := none, response := none } initialState).1 = initialState)
    ∧ (∀ reg, (mockFetch sampleEnv sampleRawHandlerA initialState).2 = .ok reg →
        (mockFetch sampleEnv sampleRawHandlerA initialState).1.fetchHandlers
          = initialState.fetchHandlers ++ [reg]) := by
  have hbad := mockFetch_fails_iff_missing_url_or_response sampleEnv
    { url := some (.str "http://h/a"), method := none
      responseDelay := none, response := none } initialState
    (fun s _ _ => ⟨0, rfl⟩)
  have hgood := mockFetch_fails_iff_missing_url_or_response sampleEnv
    sampleRawHandlerA initialState (fun s _ _ => ⟨0, rfl⟩)
  refine ⟨⟨hbad.1.mpr (Or.inr rfl), hbad.2.1 (hbad.1.mpr (Or.inr rfl))⟩, hgood.2.2⟩

/-! ## Claim C1 (first registered match wins) -/

theorem matchFetchHandler_eq_find (env : FetchEnv) (url method : String) :
    ∀ handlers, matchFetchHandler env handlers url method
      = (handlers.find? (fun g => handlerMatches env g url method)).bind
          (fun g => (env.exec g.pattern url).map (fun m => (g, m)))
  | [] => rfl
  | g :: rest => by
    by_cases hm : (g.method == method)
    · cases hex : env.exec g.pattern url with
      | some m =>
        rw [List.find?_cons_of_pos rest (by simp [handlerMatches, hm, hex])]
        simp [matchFetchHandler, bne, hm, hex]
      | none =>
        rw [List.find?_cons_of_neg rest (by simp [handlerMatches, hex])]
        simp [matchFetchHandler, bne, hm, hex,
          matchFetchHandler_eq_find env url method rest]
    · rw [List.find?_cons_of_neg rest (by simp [handlerMatches, hm])]
      simp [matchFetchHandler, bne, hm,
        matchFetchHandler_eq_find env url method rest]

/-- Claim C1: for every registry state and every intercepted call, the
    handler selected by `matchFetchHandler` — the one `mockedFetch` uses
    to synthesize the response — is the earliest-registered handler whose
    method equals the normalized request method and whose pattern matches
    the url (the `find?` characterization); in particular, when an earlier
    and a later registered handler both match, the earlier one is chosen,
    regardless of how specific the later pattern is. -/
theorem matchFetchHandler_first_registered_wins (env : FetchEnv)
    (handlers : List RegisteredHandler) (url : String) (rawMethod : Option String) :
    (matchFetchHandler env handlers url (normalizeMethod rawMethod)
       = (handlers.find? (fun g => handlerMatches env g url (normalizeMethod rawMethod))).bind
           (fun g => (env.exec g.pattern url).map (fun m => (g, m)))) ∧
    (∀ pre h1 mid h2 post,
      handlers = pre ++ h1 :: (mid ++ h2 :: post) →
      (∀ g ∈ pre, handlerMatches env g url (normalizeMethod rawMethod) = false) →
      handlerMatches env h1 url (normalizeMethod rawMethod) = true →
      handlerMatches env h2 url (normalizeMethod rawMethod) = true →
      (matchFetchHandler env handlers url (normalizeMethod rawMethod)).map Prod.fst
        = some h1) := by
  refine ⟨matchFetchHandler_eq_find env url (normalizeMethod rawMethod) handlers, ?_⟩
  rintro pre h1 mid h2 post rfl hpre hone _
  have hfind : List.find? (fun g => handlerMatches env g url (normalizeMethod rawMethod))
      (pre ++ h1 :: (mid ++ h2 :: post)) = some h1 := by
    rw [List.find?_append, List.find?_eq_none.mpr (fun g hg => by simp [hpre g hg]),
      List.find?_cons_of_pos (mid ++ h2 :: post) hone]
    rfl
  rw [matchFetchHandler_eq_find env url (normalizeMethod rawMethod), hfind]
  have hsome : (env.exec h1.pattern url).isSome = true := by
    have hone2 := hone
    unfold handlerMatches at hone2
    exact (Bool.and_eq_true .. ▸ hone2).2
  obtain ⟨m, hm⟩ := Option.isSome_iff_exists.mp hsome
  simp [hm]

/-- Witness for claim C1: two registered handlers, the first matching only
    the exact url, the second matching every url (strictly more general
    still matching); the first registered one is selected. -/
theorem matchFetchHandler_first_registered_wins_witness :
    (matchFetchHandler sampleEnv [sampleHandlerA, sampleHandlerB]
        "http://h/x" (normalizeMethod none)).map Prod.fst = some sampleHandlerA :=
  (matchFetchHandler_first_registered_wins sampleEnv [sampleHandlerA, sampleHandlerB]
      "http://h/x" none).2 [] sampleHandlerA [] sampleHandlerB [] rfl
    (fun g hg => absurd hg (List.not_mem_nil g)) rfl rfl

/-! ## Claim C2 (unmatched request policy; corrected on pass-through) -/

/-- Claim C2, counterexample to the pass-through wording: the intercepted
    call is made with options whose method is the lower-case `get`; the
    original fetch is invoked with the normalized options object (method
    `GET`), which differs from the original options — not "with the
    original arguments". -/
theorem mockedFetch_passThrough_not_original_options :
    (mockedFetch sampleEnv
        { defaultConfiguration with handleUnmockedRequests := .passThrough } []
        (fun _ _ => mkResponse none { status := some 200, headers := none })
        (.str "http://h/z") (some { method := some "get", rest := [] })).outcome
      = .passedThrough (.str "http://h/z") { method := some "GET", rest := [] }
          (mkResponse none { status := some 200, headers := none })
    ∧ ({ method := some "GET", rest := [] } : RequestInit)
        ≠ { method := some "get", rest := [] } :=
  ⟨rfl, by decide⟩

/-- Claim C2 (amended): for an intercepted call with no matching handler,
    `return-404` resolves to a response with status 404 and empty body;
    `throw-error` (the default) fails with an error naming the method and
    the url; `pass-through` invokes the captured original fetch with the
    original first argument and the NORMALIZED request options (the same
    entries with the method upper-cased, defaulting to GET) and returns
    its result unmodified. -/
theorem mockedFetch_unmatched_policies (env : FetchEnv) (cfg : FetchConfiguration)
    (handlers : List RegisteredHandler)
    (orig : RequestInfo → RequestInit → Response)
    (u : RequestInfo) (o : Option RequestInit)
    (hnone : matchFetchHandler env handlers (normalizeRequestURL u).2
        ((normalizeRequestOptions o).method.getD "GET") = none) :
    (cfg.handleUnmockedRequests = .passThrough →
       mockedFetch env cfg handlers orig u o
         = { delay := 0, outcome := .passedThrough u (normalizeRequestOptions o)
               (orig u (normalizeRequestOptions o)) }) ∧
    (cfg.handleUnmockedRequests = .throwError →
       mockedFetch env cfg handlers orig u o
         = { delay := 0, outcome := .thrown ("Fetch not mocked: "
               ++ (normalizeRequestOptions o).method.getD "GET" ++ " "
               ++ (normalizeRequestURL u).2) }) ∧
    (cfg.handleUnmockedRequests = .return404 →
       mockedFetch env cfg handlers orig u o
         = { delay := 0
             outcome := .response { status := 404, headers := [], body := none } }) := by
  simp only [mockedFetch]
  rw [hnone]
  refine ⟨fun hp => ?_, fun ht => ?_, fun hr => ?_⟩
  · simp [hp]
  · simp [ht]
  · simp [hr, mkResponse, headersOfInit]

/-- Witness for claim C2: the three policies evaluated against an empty
    registry at a concrete call. -/
theorem mockedFetch_unmatched_policies_witness :
    (mockedFetch sampleEnv
        { defaultConfiguration with handleUnmockedRequests := .passThrough } []
        (fun _ _ => mkResponse none { status := some 201, headers := none })
        (.str "http://h/z") none
      = { delay := 0
          outcome := .passedThrough (.str "http://h/z") { method := some "GET", rest := [] }
            (mkResponse none { status := some 201, headers := none }) }) ∧
    (mockedFetch sampleEnv defaultConfiguration []
        (fun _ _ => mkResponse none { status := some 201, headers := none })
        (.str "http://h/z") none
      = { delay := 0, outcome := .thrown "Fetch not mocked: GET http://h/z" }) ∧
    (mockedFetch sampleEnv
        { defaultConfiguration with handleUnmockedRequests := .return404 } []
        (fun _ _ => mkResponse none { status := some 201, headers := none })
        (.str "http://h/z") none
      = { delay := 0
          outcome := .response { status := 404, headers := [], body := none } }) := by
  refine ⟨?_, ?_, ?_⟩
  · exact (mockedFetch_unmatched_policies sampleEnv _ [] _ (.str "http://h/z") none rfl).1 rfl
  · exact (mockedFetch_unmatched_policies sampleEnv _ [] _ (.str "http://h/z") none rfl).2.1 rfl
  · exact (mockedFetch_unmatched_policies sampleEnv _ [] _ (.str "http://h/z") none rfl).2.2 rfl

/-! ## Claim C4 (response delay: handler override, else default) -/

/-- Claim C4: for every matched intercepted call, the duration handed to
    `waitForDelay` before the response is synthesized is the handler's
    `responseDelay` when the handler specifies one, and the configured
    default otherwise; in particular a handler override of 50 yields a
    wait of 50 milliseconds even when the configured default is 0 (the
    real-time elapse of the returned task is represented in the model by
    the recorded wait duration). -/
theorem mockedFetch_delay_override (env : FetchEnv) (cfg : FetchConfiguration)
    (handlers : List RegisteredHandler)
    (orig : RequestInfo → RequestInit → Response)
    (u : RequestInfo) (o : Option RequestInit)
    (handler : RegisteredHandler) (m : URLPatternResult)
    (hmatch : matchFetchHandler env handlers (normalizeRequestURL u).2
        ((normalizeRequestOptions o).method.getD "GET") = some (handler, m)) :
    ((mockedFetch env cfg handlers orig u o).delay
        = handler.responseDelay.getD cfg.responseDelay) ∧
    (handler.responseDelay = some 50 → cfg.responseDelay = 0 →
        (mockedFetch env cfg handlers orig u o).delay = 50) := by
  have hd : (mockedFetch env cfg handlers orig u o).delay
      = handler.responseDelay.getD cfg.responseDelay := by
    simp only [mockedFetch]
    rw [hmatch]
    simp only
    split
    · rfl
    · split <;> rfl
  refine ⟨hd, fun h50 _ => ?_⟩
  rw [hd, h50]
  rfl

/-- Witness for claim C4: a handler with `responseDelay: 50` against the
    default configuration (delay 0) records a 50 ms wait. -/
theorem mockedFetch_delay_override_witness :
    (mockedFetch sampleEnv defaultConfiguration
        [{ sampleHandlerA with responseDelay := some 50 }]
        (fun _ _ => mkResponse none { status := some 200, headers := none })
        (.str "http://h/x") none).delay = 50 :=
  (mockedFetch_delay_override sampleEnv defaultConfiguration
      [{ sampleHandlerA with responseDelay := some 50 }] _ (.str "http://h/x") none
      { sampleHandlerA with responseDelay := some 50 } { pathnameGroups := [] }
      rfl).2 rfl rfl

/-! ## Claim C8 (registration makes the identity lookup succeed) -/

/-- Claim C8: registering a valid handler makes `includesMockedFetch` with
    the handler's url and method answer true; the method comparison is
    case-insensitive (the lower-cased method also hits); and the lookup is
    identity lookup over the registry — it answers true exactly when an
    entry with identical url value and normalized method is registered
    (`findFetchHandler` consults no pattern), not by pattern matching. -/
theorem mockFetch_then_includes
    (env : FetchEnv) (h : FetchHandler) (st : MockFetchState) (reg : RegisteredHandler)
    (hok : (mockFetch env h st).2 = .ok reg) :
    (∃ s1, includesMockedFetch { url := h.url, method := h.method }
        (mockFetch env h st).1.fetchHandlers = .ok (true, s1)) ∧
    (∃ s2, includesMockedFetch
        { url := h.url, method := some (jsToLowerCase (normalizeMethod h.method)) }
        (mockFetch env h st).1.fetchHandlers = .ok (true, s2)) ∧
    (∀ spec n b s3, normalizeSpecification spec = .ok n →
       includesMockedFetch spec (mockFetch env h st).1.fetchHandlers = .ok (b, s3) →
       (b = true ↔ ∃ g ∈ (mockFetch env h st).1.fetchHandlers,
          g.url = n.url ∧ g.method = n.method)) := by
  obtain ⟨hn, hhs⟩ := mockFetch_ok_parts env h st reg hok
  obtain ⟨hmiss, hurl, hmeth⟩ := normalizeHandler_ok env h reg hn
  have hmem : reg ∈ (mockFetch env h st).1.fetchHandlers := by
    rw [hhs]
    exact List.mem_append_right _ (by simp)
  refine ⟨?_, ?_, ?_⟩
  · obtain ⟨u, hu, hnorm⟩ := normalizeSpecification_of_present
      { url := h.url, method := h.method } hmiss
    have hu2 : u = reg.url := by
      have hu3 : some u = some reg.url := by
        have hu4 : h.url = some u := hu
        rw [← hu4, hurl]
      exact Option.some.inj hu3
    have hfind : 0 ≤ findFetchHandler (mockFetch env h st).1.fetchHandlers u
        (normalizeMethod h.method) := by
      apply (findFetchHandler_nonneg_iff _ _ _).mpr
      exact ⟨reg, hmem, hu2.symm, hmeth⟩
    refine ⟨writeBackSpecification { url := h.url, method := h.method }
        { url := u, method := normalizeMethod h.method }, ?_⟩
    unfold includesMockedFetch
    rw [hnorm]
    simp [hfind]
  · have hmiss2 : urlIsMissing
        ({ url := h.url, method := some (jsToLowerCase (normalizeMethod h.method)) }
          : FetchSpecification).url = false := hmiss
    obtain ⟨u, hu, hnorm⟩ := normalizeSpecification_of_present
      { url := h.url, method := some (jsToLowerCase (normalizeMethod h.method)) } hmiss2
    have hu2 : u = reg.url := by
      have hu3 : some u = some reg.url := by
        have hu4 : h.url = some u := hu
        rw [← hu4, hurl]
      exact Option.some.inj hu3
    have hlow : normalizeMethod (some (jsToLowerCase (normalizeMethod h.method)))
        = normalizeMethod h.method := normalizeMethod_of_lower h.method
    have hfind : 0 ≤ findFetchHandler (mockFetch env h st).1.fetchHandlers u
        (normalizeMethod (some (jsToLowerCase (normalizeMethod h.method)))) := by
      apply (findFetchHandler_nonneg_iff _ _ _).mpr
      refine ⟨reg, hmem, hu2.symm, ?_⟩
      rw [hlow]
      exact hmeth
    refine ⟨writeBackSpecification
        { url := h.url, method := some (jsToLowerCase (normalizeMethod h.method)) }
        { url := u, method := normalizeMethod (some (jsToLowerCase (normalizeMethod h.method))) }, ?_⟩
    unfold includesMockedFetch
    rw [hnorm]
    simp [hfind]
  · intro spec n b s3 hns hinc
    unfold includesMockedFetch at hinc
    rw [hns] at hinc
    simp only [Except.ok.injEq, Prod.mk.injEq] at hinc
    obtain ⟨hb, -⟩ := hinc
    rw [← hb, decide_eq_true_eq]
    exact findFetchHandler_nonneg_iff _ _ _

/-- Witness for claim C8: register a handler for `http://h/x` with method
    `Post`; the identity lookup succeeds both with `Post` and with the
    lower-case `post`. -/
theorem mockFetch_then_includes_witness :
    ∃ s1 s2,
      includesMockedFetch { url := some (.str "http://h/x"), method := some "Post" }
        (mockFetch sampleEnv
          { url := some (.str "http://h/x"), method := some "Post"
            responseDelay := none, response := some sampleResponse }
          initialState).1.fetchHandlers = .ok (true, s1) ∧
      includesMockedFetch { url := some (.str "http://h/x"), method := some "post" }
        (mockFetch sampleEnv
          { url := some (.str "http://h/x"), method := some "Post"
            responseDelay := none, response := some sampleResponse }
          initialState).1.fetchHandlers = .ok (true, s2) := by
  obtain ⟨⟨s1, hs1⟩, ⟨s2, hs2⟩, -⟩ := mockFetch_then_includes sampleEnv
    { url := some (.str "http://h/x"), method := some "Post"
      responseDelay := none, response := some sampleResponse }
    initialState
    { url := .str "http://h/x", method := "POST", responseDelay := none
      response := sampleResponse, pattern := 0 }
    rfl
  exact ⟨s1, s2, hs1, hs2⟩

/-! ## Claim C6 (configuration validation; corrected on falsy values) -/

/-- Claim C6, counterexample: `handleUnmockedRequests` present as the
    empty string — present, and not one of the three enumerated values —
    is skipped by the JS truthiness test: the call succeeds and changes
    nothing, where the claim requires a validation error. -/
theorem setFetchConfiguration_empty_policy_accepted :
    setFetchConfiguration
        { handleUnmockedRequests := some "", responseDelay := none
          autoReplaceFetch := none, logging := none } defaultConfiguration
      = (defaultConfiguration, .ok ())
    ∧ ("" ∈ unmockedRequestHandling → False) :=
  ⟨rfl, by decide⟩

theorem applyRemainingConfiguration_fields (options : SetConfigurationOptions)
    (c : FetchConfiguration) :
    ((applyRemainingConfiguration options c).responseDelay
        = match options.responseDelay with
          | some d => if 0 ≤ d then d else c.responseDelay
          | none => c.responseDelay)
      ∧ ((applyRemainingConfiguration options c).autoReplaceFetch
          = options.autoReplaceFetch.getD c.autoReplaceFetch)
      ∧ ((applyRemainingConfiguration options c).logging
          = options.logging.getD c.logging) := by
  unfold applyRemainingConfiguration
  rcases options.responseDelay with _ | d <;>
    rcases options.autoReplaceFetch with _ | b1 <;>
      rcases options.logging with _ | b2 <;>
        simp <;> split <;> simp

/-- Claim C6 (amended): if `handleUnmockedRequests` is present and truthy
    (a non-empty string) but not one of `pass-through`, `return-404`,
    `throw-error`, the call fails with the validation error and every
    configuration field keeps its prior value; a negative or absent
    `responseDelay` leaves the stored delay unchanged (a non-negative one
    is applied); the boolean fields are applied exactly when a boolean
    value was supplied. -/
theorem setFetchConfiguration_validation (options : SetConfigurationOptions)
    (c : FetchConfiguration) :
    (∀ s, options.handleUnmockedRequests = some s → s ≠ "" →
        s ∉ unmockedRequestHandling →
        setFetchConfiguration options c
          = (c, .error ("Invalid handleUnmockedRequests: " ++ s))) ∧
    ((setFetchConfiguration options c).2 = .ok () →
      ((setFetchConfiguration options c).1.responseDelay
          = match options.responseDelay with
            | some d => if 0 ≤ d then d else c.responseDelay
            | none => c.responseDelay)
        ∧ ((setFetchConfiguration options c).1.autoReplaceFetch
            = options.autoReplaceFetch.getD c.autoReplaceFetch)
        ∧ ((setFetchConfiguration options c).1.logging
            = options.logging.getD c.logging)) := by
  constructor
  · intro s hs hne hnotin
    unfold setFetchConfiguration
    rw [hs]
    have hcontains : unmockedRequestHandling.contains s = false := by
      simpa using hnotin
    simp [hne, hcontains]
    exact hnotin
  · intro hok2
    unfold setFetchConfiguration at hok2 ⊢
    cases hh : options.handleUnmockedRequests with
    | none => exact applyRemainingConfiguration_fields options c
    | some s =>
      by_cases hs : s == ""
      · simp only [hs, if_true]
        exact applyRemainingConfiguration_fields options c
      · by_cases hcont : unmockedRequestHandling.contains s
        · simp only [hs, if_false, hcont, if_true]
          exact applyRemainingConfiguration_fields options _
        · rw [hh] at hok2
          simp only [hs, if_false, hcont] at hok2
          cases hok2

/-- Witness for claim C6: an invalid non-empty policy string is rejected
    with the configuration unchanged; a call with `responseDelay: -1` and
    `logging: false` keeps the delay and applies the boolean. -/
theorem setFetchConfiguration_validation_witness :
    (setFetchConfiguration
        { handleUnmockedRequests := some "bogus", responseDelay := some 5
          autoReplaceFetch := none, logging := none } defaultConfiguration
      = (defaultConfiguration, .error "Invalid handleUnmockedRequests: bogus")) ∧
    ((setFetchConfiguration
        { handleUnmockedRequests := none, responseDelay := some (-1)
          autoReplaceFetch := none, logging := some false } defaultConfiguration).1.responseDelay
        = defaultConfiguration.responseDelay) ∧
    ((setFetchConfiguration
        { handleUnmockedRequests := none, responseDelay := some (-1)
          autoReplaceFetch := none, logging := some false } defaultConfiguration).1.logging
        = false) := by
  have h1 := (setFetchConfiguration_validation
    { handleUnmockedRequests := some "bogus", responseDelay := some 5
      autoReplaceFetch := none, logging := none } defaultConfiguration).1
    "bogus" rfl (by decide) (by decide)
  have h2 := (setFetchConfiguration_validation
    { handleUnmockedRequests := none, responseDelay := some (-1)
      autoReplaceFetch := none, logging := some false } defaultConfiguration).2 rfl
  exact ⟨h1, by rw [h2.1]; decide, by rw [h2.2.2]; rfl⟩

/-! ## JSON codec round-trip: decimal numbers -/

theorem toNat_decimalDigitChar (d : Nat) (h : d < 10) :
    (Char.ofNat (48 + d)).toNat = 48 + d :=
  char_toNat_ofNat _ (Or.inl (by omega))

theorem jsonIsDigit_decimalDigitChar (d : Nat) (h : d < 10) :
    jsonIsDigit (Char.ofNat (48 + d)) = true := by
  unfold jsonIsDigit
  rw [toNat_decimalDigitChar d h]
  simp only [Bool.and_eq_true, decide_eq_true_eq]
  omega

theorem natDecimalCharsAux_digits :
    ∀ fuel n, ∀ c ∈ natDecimalCharsAux fuel n, jsonIsDigit c = true
  | 0, n => by intro c hc; cases hc
  | fuel + 1, n => by
    intro c hc
    unfold natDecimalCharsAux at hc
    split at hc
    · rename_i h10
      simp only [List.mem_singleton] at hc
      subst hc
      exact jsonIsDigit_decimalDigitChar n h10
    · rw [List.mem_append] at hc
      cases hc with
      | inl hmem => exact natDecimalCharsAux_digits fuel (n / 10) c hmem
      | inr hmem =>
        simp only [List.mem_singleton] at hmem
        subst hmem
        exact jsonIsDigit_decimalDigitChar (n % 10) (Nat.mod_lt _ (by omega))

theorem natDecimalCharsAux_cons :
    ∀ fuel n, n < fuel → ∃ c t, natDecimalCharsAux fuel n = c :: t
  | 0, n, h => absurd h (Nat.not_lt_zero n)
  | fuel + 1, n, h => by
    unfold natDecimalCharsAux
    split
    · exact ⟨_, _, rfl⟩
    · rename_i h10
      obtain ⟨c, t, hct⟩ := natDecimalCharsAux_cons fuel (n / 10) (by omega)
      exact ⟨c, t ++ [Char.ofNat (48 + n % 10)], by rw [hct]; rfl⟩

theorem jsonDigitSpan_stop (rest : List Char) (h : jsonNumDelim rest = true) :
    jsonDigitSpan rest = ([], rest) := by
  cases rest with
  | nil => rfl
  | cons c t =>
    unfold jsonNumDelim at h
    simp only [Bool.not_eq_true'] at h
    unfold jsonDigitSpan
    simp [h]

theorem jsonDigitSpan_append (ds : List Char) (hds : ∀ c ∈ ds, jsonIsDigit c = true)
    (rest : List Char) (hrest : jsonNumDelim rest = true) :
    jsonDigitSpan (ds ++ rest) = (ds.map (fun c => c.toNat - 48), rest) := by
  induction ds with
  | nil => simpa using jsonDigitSpan_stop rest hrest
  | cons c t ih =>
    have hc := hds c (by simp)
    have ht := ih (fun x hx => hds x (by simp [hx]))
    simp only [List.cons_append]
    unfold jsonDigitSpan
    simp [hc, ht]

theorem jsonDigitsVal_append (l : List Nat) (d : Nat) :
    jsonDigitsVal (l ++ [d]) = 10 * jsonDigitsVal l + d := by
  unfold jsonDigitsVal
  rw [List.foldl_append]
  simp only [List.foldl_cons, List.foldl_nil]
  omega

theorem natDecimalCharsAux_val :
    ∀ fuel n, n < fuel →
      jsonDigitsVal ((natDecimalCharsAux fuel n).map (fun c => c.toNat - 48)) = n
  | 0, n, h => absurd h (Nat.not_lt_zero n)
  | fuel + 1, n, h => by
    unfold natDecimalCharsAux
    split
    · rename_i h10
      simp only [List.map_cons, List.map_nil]
      rw [toNat_decimalDigitChar n h10]
      simp [jsonDigitsVal]
    · rename_i h10
      rw [List.map_append]
      simp only [List.map_cons, List.map_nil]
      rw [jsonDigitsVal_append, natDecimalCharsAux_val fuel (n / 10) (by omega),
        toNat_decimalDigitChar (n % 10) (Nat.mod_lt _ (by omega))]
      omega

theorem jsonIsDigit_excludes (c : Char) (h : jsonIsDigit c = true) :
    c ≠ '-' ∧ c ≠ 'n' ∧ c ≠ 't' ∧ c ≠ 'f' ∧ c ≠ '"' ∧ c ≠ '['
      ∧ c ≠ '{' ∧ c ≠ ']' ∧ c ≠ '}' ∧ c ≠ ',' := by
  refine ⟨?_, ?_, ?_, ?_, ?_, ?_, ?_, ?_, ?_, ?_⟩ <;>
    (intro heq; subst heq; revert h; decide)

theorem jsonParseNumber_roundtrip (i : Int) (rest : List Char)
    (hrest : jsonNumDelim rest = true) :
    jsonParseNumber (intDecimalChars i ++ rest) = some (.num i, rest) := by
  have hspan := jsonDigitSpan_append (natDecimalChars i.natAbs)
    (natDecimalCharsAux_digits _ _) rest hrest
  have hval : jsonDigitsVal ((natDecimalChars i.natAbs).map (fun c => c.toNat - 48))
      = i.natAbs := natDecimalCharsAux_val _ _ (Nat.lt_succ_self _)
  obtain ⟨c, t, hct⟩ := natDecimalCharsAux_cons (i.natAbs + 1) i.natAbs (Nat.lt_succ_self _)
  have hcd : jsonIsDigit c = true := by
    apply natDecimalCharsAux_digits (i.natAbs + 1) i.natAbs
    rw [show natDecimalCharsAux (i.natAbs + 1) i.natAbs = c :: t from hct]
    simp
  by_cases hneg : i < 0
  · unfold intDecimalChars
    rw [if_pos hneg]
    simp only [List.cons_append]
    simp only [jsonParseNumber, if_true]
    rw [hspan]
    have hmapcons : (natDecimalChars i.natAbs).map (fun c => c.toNat - 48)
        = (c.toNat - 48) :: t.map (fun c => c.toNat - 48) := by
      show (natDecimalCharsAux (i.natAbs + 1) i.natAbs).map (fun c => c.toNat - 48) = _
      rw [hct]
      rfl
    rw [hmapcons] at hval ⊢
    simp only [Option.some.injEq, Prod.mk.injEq, Json.num.injEq]
    refine ⟨?_, by trivial⟩
    rw [hval]
    omega
  · unfold intDecimalChars
    rw [if_neg hneg]
    have hinput : natDecimalChars i.natAbs ++ rest = c :: (t ++ rest) := by
      show natDecimalCharsAux (i.natAbs + 1) i.natAbs ++ rest = _
      rw [hct]
      rfl
    rw [hinput]
    simp only [jsonParseNumber]
    rw [if_neg (jsonIsDigit_excludes c hcd).1, ← hinput, hspan]
    have hmapcons : (natDecimalChars i.natAbs).map (fun c => c.toNat - 48)
        = (c.toNat - 48) :: t.map (fun c => c.toNat - 48) := by
      show (natDecimalCharsAux (i.natAbs + 1) i.natAbs).map (fun c => c.toNat - 48) = _
      rw [hct]
      rfl
    rw [hmapcons] at hval ⊢
    simp only [Option.some.injEq, Prod.mk.injEq, Json.num.injEq]
    refine ⟨?_, by trivial⟩
    rw [hval]
    omega

/-! ## JSON codec round-trip: string literals -/

theorem jsonHexVal_hexDigit (d : Nat) (h : d < 16) :
    jsonHexVal (jsonHexDigit d) = some d := by
  interval_cases d <;> decide

set_option maxHeartbeats 1000000 in
theorem jsonParseStringBody_unicode (h3 h4 : Char) (v3 v4 : Nat) (tail : List Char)
    (hx3 : jsonHexVal h3 = some v3) (hx4 : jsonHexVal h4 = some v4) :
    jsonParseStringBody ('\\' :: 'u' :: '0' :: '0' :: h3 :: h4 :: tail)
      = (jsonParseStringBody tail).map
          (fun p => (Char.ofNat (((0 * 16 + 0) * 16 + v3) * 16 + v4) :: p.1, p.2)) := by
  have step : jsonParseStringBody ('\\' :: 'u' :: '0' :: '0' :: h3 :: h4 :: tail)
      = match jsonHexVal '0', jsonHexVal '0', jsonHexVal h3, jsonHexVal h4 with
        | some a, some b, some u3, some u4 =>
          (jsonParseStringBody tail).map
            (fun p => (Char.ofNat (((a * 16 + b) * 16 + u3) * 16 + u4) :: p.1, p.2))
        | _, _, _, _ => none := rfl
  rw [step, hx3, hx4, show jsonHexVal '0' = some 0 from rfl]

set_option maxHeartbeats 1000000 in
theorem jsonParseStringBody_plain (c : Char) (tail : List Char)
    (hq : c ≠ '"') (hbs : c ≠ '\\') :
    jsonParseStringBody (c :: tail)
      = (jsonParseStringBody tail).map (fun p => (c :: p.1, p.2)) := by
  rw [jsonParseStringBody.eq_def]
  simp only [if_neg hq, if_neg hbs]

theorem jsonParseStringBody_escape (c : Char) (tail : List Char) :
    jsonParseStringBody (jsonEscapeChar c ++ tail)
      = (jsonParseStringBody tail).map (fun p => (c :: p.1, p.2)) := by
  unfold jsonEscapeChar
  split_ifs with hq hbs hb hf hn hr ht hc32
  · subst hq; rfl
  · subst hbs; rfl
  · subst hb; rfl
  · subst hf; rfl
  · subst hn; rfl
  · subst hr; rfl
  · subst ht; rfl
  · show jsonParseStringBody
        ('\\' :: 'u' :: '0' :: '0' :: jsonHexDigit (c.toNat / 16)
          :: jsonHexDigit (c.toNat % 16) :: tail) = _
    rw [jsonParseStringBody_unicode _ _ _ _ tail
      (jsonHexVal_hexDigit _ (by omega)) (jsonHexVal_hexDigit _ (by omega))]
    rw [show ((0 * 16 + 0) * 16 + c.toNat / 16) * 16 + c.toNat % 16 = c.toNat from by omega,
      Char.ofNat_toNat]
  · show jsonParseStringBody (c :: tail) = _
    exact jsonParseStringBody_plain c tail hq hbs

set_option maxHeartbeats 1000000 in
theorem jsonParseStringBody_closeQuote (rest : List Char) :
    jsonParseStringBody ('"' :: rest) = some ([], rest) := by
  rw [jsonParseStringBody.eq_def]
  split
  · rename Eq _ _ => h; cases h
  · rename Eq _ _ => h
    injection h with h1 h2
    subst h1; subst h2
    rw [if_pos rfl]

theorem jsonParseStringBody_quote (l : List Char) (rest : List Char) :
    jsonParseStringBody (l.flatMap jsonEscapeChar ++ '"' :: rest) = some (l, rest) := by
  induction l with
  | nil =>
    show jsonParseStringBody ('"' :: rest) = some ([], rest)
    exact jsonParseStringBody_closeQuote rest
  | cons c t ih =>
    rw [List.flatMap_cons, List.append_assoc, jsonParseStringBody_escape, ih]
    rfl

/-! ## JSON codec round-trip: full values -/

theorem jsonParseValue_number (f : Nat) (c : Char) (rest : List Char)
    (hn : c ≠ 'n') (ht : c ≠ 't') (hf : c ≠ 'f') (hq : c ≠ '"')
    (hb : c ≠ '[') (hbr : c ≠ '{') :
    jsonParseValue (f + 1) (c :: rest) = jsonParseNumber (c :: rest) := by
  simp only [jsonParseValue]
  rw [if_neg hn, if_neg ht, if_neg hf, if_neg hq, if_neg hb, if_neg hbr]

theorem jsonParseValue_arr (f : Nat) (d : Char) (r : List Char) (hd : d ≠ ']') :
    jsonParseValue (f + 1) ('[' :: d :: r)
      = (jsonParseElems f (d :: r)).map (fun p => (Json.arr p.1, p.2)) := by
  simp only [jsonParseValue, reduceIte]
  rw [if_neg (show ¬('[' : Char) = 'n' by decide), if_neg (show ¬('[' : Char) = 't' by decide),
    if_neg (show ¬('[' : Char) = 'f' by decide), if_neg (show ¬('[' : Char) = '"' by decide),
    if_neg hd]

theorem jsonParseValue_obj (f : Nat) (d : Char) (r : List Char) (hd : d ≠ '}') :
    jsonParseValue (f + 1) ('{' :: d :: r)
      = (jsonParseMembers f (d :: r)).map (fun p => (Json.obj p.1, p.2)) := by
  simp only [jsonParseValue, reduceIte]
  rw [if_neg (show ¬('{' : Char) = 'n' by decide), if_neg (show ¬('{' : Char) = 't' by decide),
    if_neg (show ¬('{' : Char) = 'f' by decide), if_neg (show ¬('{' : Char) = '"' by decide),
    if_neg (show ¬('{' : Char) = '[' by decide), if_neg hd]

theorem jsonParseElems_comma (f : Nat) (input : List Char) (v : Json) (r : List Char)
    (h : jsonParseValue f input = some (v, ',' :: r)) :
    jsonParseElems (f + 1) input
      = (jsonParseElems f r).map (fun p => (v :: p.1, p.2)) := by
  simp only [jsonParseElems, h]

theorem jsonParseElems_close (f : Nat) (input : List Char) (v : Json) (r : List Char)
    (h : jsonParseValue f input = some (v, ']' :: r)) :
    jsonParseElems (f + 1) input = some ([v], r) := by
  simp only [jsonParseElems, h]

theorem jsonParseMembers_comma (f : Nat) (rest key r2 : List Char) (v : Json) (r4 : List Char)
    (hkey : jsonParseStringBody rest = some (key, ':' :: r2))
    (hval : jsonParseValue f r2 = some (v, ',' :: r4)) :
    jsonParseMembers (f + 1) ('"' :: rest)
      = (jsonParseMembers f r4).map (fun p => ((⟨key⟩, v) :: p.1, p.2)) := by
  simp only [jsonParseMembers, hkey, hval]

theorem jsonParseMembers_close (f : Nat) (rest key r2 : List Char) (v : Json) (r4 : List Char)
    (hkey : jsonParseStringBody rest = some (key, ':' :: r2))
    (hval : jsonParseValue f r2 = some (v, '}' :: r4)) :
    jsonParseMembers (f + 1) ('"' :: rest) = some ([(⟨key⟩, v)], r4) := by
  simp only [jsonParseMembers, hkey, hval]

theorem intDecimalChars_cons (i : Int) :
    ∃ c t, intDecimalChars i = c :: t ∧ (c = '-' ∨ jsonIsDigit c = true) := by
  by_cases hneg : i < 0
  · exact ⟨'-', natDecimalChars i.natAbs, by rw [intDecimalChars, if_pos hneg], Or.inl rfl⟩
  · obtain ⟨c, t, hct⟩ := natDecimalCharsAux_cons (i.natAbs + 1) i.natAbs (Nat.lt_succ_self _)
    refine ⟨c, t, by rw [intDecimalChars, if_neg hneg]; exact hct, Or.inr ?_⟩
    apply natDecimalCharsAux_digits (i.natAbs + 1) i.natAbs
    rw [hct]
    simp

theorem jsonChars_cons (j : Json) :
    ∃ c t, jsonChars j = c :: t ∧ c ≠ ']' ∧ c ≠ '}' := by
  cases j with
  | null => exact ⟨'n', _, rfl, by decide, by decide⟩
  | bool b => cases b with
    | false => exact ⟨'f', _, rfl, by decide, by decide⟩
    | true => exact ⟨'t', _, rfl, by decide, by decide⟩
  | num n =>
    obtain ⟨c, t, hct, hc⟩ := intDecimalChars_cons n
    refine ⟨c, t, hct, ?_, ?_⟩ <;>
      (cases hc with
        | inl h => subst h; decide
        | inr h => intro he; subst he; revert h; decide)
  | str s => exact ⟨'"', _, rfl, by decide, by decide⟩
  | arr xs => cases xs with
    | nil => exact ⟨'[', _, rfl, by decide, by decide⟩
    | cons x t => exact ⟨'[', _, rfl, by decide, by decide⟩
  | obj kvs => cases kvs with
    | nil => exact ⟨'{', _, rfl, by decide, by decide⟩
    | cons kv t => exact ⟨'{', _, by rw [jsonChars], by decide, by decide⟩

theorem jsonChars_length_pos (j : Json) : 1 ≤ (jsonChars j).length := by
  obtain ⟨c, t, hct, -, -⟩ := jsonChars_cons j
  rw [hct]
  simp

theorem jsonNumDelim_elemsRest (xs : List Json) (rest : List Char) :
    jsonNumDelim (jsonCharsElemsRest xs ++ ']' :: rest) = true := by
  cases xs with
  | nil => rfl
  | cons y ys => rfl

theorem jsonNumDelim_membersRest (kvs : List (String × Json)) (rest : List Char) :
    jsonNumDelim (jsonCharsMembersRest kvs ++ '}' :: rest) = true := by
  cases kvs with
  | nil => rfl
  | cons kv kvs' => obtain ⟨k, v⟩ := kv; rfl

theorem json_list_sizeOf_pos {α : Type} [SizeOf α] (l : List α) : 0 < sizeOf l := by
  cases l with
  | nil => simp
  | cons a t => simp

mutual

theorem jsonRoundtripValue : ∀ (j : Json) (f : Nat) (rest : List Char),
    (jsonChars j).length ≤ f → jsonNumDelim rest = true →
    jsonParseValue f (jsonChars j ++ rest) = some (j, rest)
  | .null, f, rest, hf, _ => by
    have hpos := jsonChars_length_pos Json.null
    obtain ⟨g, rfl⟩ : ∃ g, f = g + 1 := ⟨f - 1, by omega⟩
    rfl
  | .bool true, f, rest, hf, _ => by
    have hpos := jsonChars_length_pos (Json.bool true)
    obtain ⟨g, rfl⟩ : ∃ g, f = g + 1 := ⟨f - 1, by omega⟩
    rfl
  | .bool false, f, rest, hf, _ => by
    have hpos := jsonChars_length_pos (Json.bool false)
    obtain ⟨g, rfl⟩ : ∃ g, f = g + 1 := ⟨f - 1, by omega⟩
    rfl
  | .num n, f, rest, hf, hrest => by
    have hpos := jsonChars_length_pos (Json.num n)
    obtain ⟨g, rfl⟩ : ∃ g, f = g + 1 := ⟨f - 1, by omega⟩
    obtain ⟨c, t, hct, hc⟩ := intDecimalChars_cons n
    have hdis : c ≠ 'n' ∧ c ≠ 't' ∧ c ≠ 'f' ∧ c ≠ '"' ∧ c ≠ '[' ∧ c ≠ '{' := by
      cases hc with
      | inl h =>
        subst h
        exact ⟨by decide, by decide, by decide, by decide, by decide, by decide⟩
      | inr h =>
        obtain ⟨-, h2, h3, h4, h5, h6, h7, -, -, -⟩ := jsonIsDigit_excludes c h
        exact ⟨h2, h3, h4, h5, h6, h7⟩
    show jsonParseValue (g + 1) (intDecimalChars n ++ rest) = _
    rw [hct, List.cons_append,
      jsonParseValue_number g c (t ++ rest) hdis.1 hdis.2.1 hdis.2.2.1 hdis.2.2.2.1
        hdis.2.2.2.2.1 hdis.2.2.2.2.2,
      ← List.cons_append, ← hct]
    exact jsonParseNumber_roundtrip n rest hrest
  | .str s, f, rest, hf, _ => by
    have hpos := jsonChars_length_pos (Json.str s)
    obtain ⟨g, rfl⟩ : ∃ g, f = g + 1 := ⟨f - 1, by omega⟩
    show jsonParseValue (g + 1) (jsonQuoteChars s ++ rest) = _
    rw [show jsonQuoteChars s ++ rest
        = '"' :: (s.data.flatMap jsonEscapeChar ++ '"' :: rest) from by
      simp [jsonQuoteChars]]
    rw [show jsonParseValue (g + 1) ('"' :: (s.data.flatMap jsonEscapeChar ++ '"' :: rest))
        = (jsonParseStringBody (s.data.flatMap jsonEscapeChar ++ '"' :: rest)).map
            (fun p => (Json.str ⟨p.1⟩, p.2)) from rfl]
    rw [jsonParseStringBody_quote]
    rfl
  | .arr [], f, rest, hf, _ => by
    have hpos := jsonChars_length_pos (Json.arr [])
    obtain ⟨g, rfl⟩ : ∃ g, f = g + 1 := ⟨f - 1, by omega⟩
    rfl
  | .arr (x :: xs), f, rest, hf, _ => by
    have hpos := jsonChars_length_pos (Json.arr (x :: xs))
    obtain ⟨g, rfl⟩ : ∃ g, f = g + 1 := ⟨f - 1, by omega⟩
    have harith : (jsonChars x).length + (jsonCharsElemsRest xs).length + 1 ≤ g := by
      simp only [jsonChars, List.length_cons, List.length_append,
        List.length_singleton] at hf
      omega
    obtain ⟨c, t, hct, hcne, -⟩ := jsonChars_cons x
    rw [show jsonChars (Json.arr (x :: xs)) ++ rest
        = '[' :: (jsonChars x ++ (jsonCharsElemsRest xs ++ ']' :: rest)) from by
      simp [jsonChars]]
    rw [hct, List.cons_append,
      jsonParseValue_arr g c (t ++ (jsonCharsElemsRest xs ++ ']' :: rest)) hcne,
      ← List.cons_append, ← hct]
    rw [jsonRoundtripElems x xs g rest harith]
    rfl
  | .obj [], f, rest, hf, _ => by
    have hpos := jsonChars_length_pos (Json.obj [])
    obtain ⟨g, rfl⟩ : ∃ g, f = g + 1 := ⟨f - 1, by omega⟩
    rfl
  | .obj ((k, v) :: kvs), f, rest, hf, _ => by
    have hpos := jsonChars_length_pos (Json.obj ((k, v) :: kvs))
    obtain ⟨g, rfl⟩ : ∃ g, f = g + 1 := ⟨f - 1, by omega⟩
    have harith : (jsonQuoteChars k).length + (jsonChars v).length
        + (jsonCharsMembersRest kvs).length + 1 ≤ g := by
      simp only [jsonChars, jsonQuoteChars, List.length_cons, List.length_append,
        List.length_singleton] at hf ⊢
      omega
    rw [show jsonChars (Json.obj ((k, v) :: kvs)) ++ rest
        = '{' :: '"' :: (k.data.flatMap jsonEscapeChar
            ++ '"' :: (':' :: (jsonChars v
              ++ (jsonCharsMembersRest kvs ++ '}' :: rest)))) from by
      simp [jsonChars, jsonQuoteChars]]
    rw [jsonParseValue_obj g '"' _ (by decide)]
    rw [show ('"' :: (k.data.flatMap jsonEscapeChar
          ++ '"' :: (':' :: (jsonChars v ++ (jsonCharsMembersRest kvs ++ '}' :: rest)))))
        = jsonQuoteChars k
            ++ ':' :: (jsonChars v ++ (jsonCharsMembersRest kvs ++ '}' :: rest)) from by
      simp [jsonQuoteChars]]
    rw [jsonRoundtripMembers k v kvs g rest harith]
    rfl
termination_by j _ _ _ _ => sizeOf j
decreasing_by
all_goals simp_wf
all_goals omega

theorem jsonRoundtripElems : ∀ (x : Json) (xs : List Json) (g : Nat) (rest : List Char),
    (jsonChars x).length + (jsonCharsElemsRest xs).length + 1 ≤ g →
    jsonParseElems g (jsonChars x ++ (jsonCharsElemsRest xs ++ ']' :: rest))
      = some (x :: xs, rest)
  | x, [], g, rest, hg => by
    obtain ⟨g', rfl⟩ : ∃ h, g = h + 1 := ⟨g - 1, by omega⟩
    have hval : jsonParseValue g' (jsonChars x ++ ']' :: rest) = some (x, ']' :: rest) :=
      jsonRoundtripValue x g' (']' :: rest) (by omega) (by rfl)
    rw [show jsonCharsElemsRest ([] : List Json) ++ ']' :: rest = ']' :: rest from rfl]
    exact jsonParseElems_close g' _ x rest hval
  | x, y :: ys, g, rest, hg => by
    obtain ⟨g', rfl⟩ : ∃ h, g = h + 1 := ⟨g - 1, by omega⟩
    have harith : (jsonChars y).length + (jsonCharsElemsRest ys).length + 1 ≤ g' := by
      have h1 := jsonChars_length_pos x
      simp only [jsonCharsElemsRest, List.length_cons, List.length_append] at hg
      omega
    have hval : jsonParseValue g'
        (jsonChars x ++ ',' :: (jsonChars y ++ (jsonCharsElemsRest ys ++ ']' :: rest)))
        = some (x, ',' :: (jsonChars y ++ (jsonCharsElemsRest ys ++ ']' :: rest))) :=
      jsonRoundtripValue x g' _ (by omega) (by rfl)
    rw [show jsonCharsElemsRest (y :: ys) ++ ']' :: rest
        = ',' :: (jsonChars y ++ (jsonCharsElemsRest ys ++ ']' :: rest)) from by
      simp [jsonCharsElemsRest]]
    rw [jsonParseElems_comma g' _ x _ hval, jsonRoundtripElems y ys g' rest harith]
    rfl
termination_by x xs _ _ _ => sizeOf x + sizeOf xs
decreasing_by
all_goals simp_wf
all_goals omega

theorem jsonRoundtripMembers :
    ∀ (k : String) (v : Json) (kvs : List (String × Json)) (g : Nat) (rest : List Char),
    (jsonQuoteChars k).length + (jsonChars v).length
        + (jsonCharsMembersRest kvs).length + 1 ≤ g →
    jsonParseMembers g
        (jsonQuoteChars k ++ ':' :: (jsonChars v ++ (jsonCharsMembersRest kvs ++ '}' :: rest)))
      = some ((k, v) :: kvs, rest)
  | k, v, [], g, rest, hg => by
    obtain ⟨g', rfl⟩ : ∃ h, g = h + 1 := ⟨g - 1, by omega⟩
    have hkey : jsonParseStringBody (k.data.flatMap jsonEscapeChar
        ++ '"' :: (':' :: (jsonChars v ++ '}' :: rest)))
        = some (k.data, ':' :: (jsonChars v ++ '}' :: rest)) :=
      jsonParseStringBody_quote k.data _
    have hval : jsonParseValue g' (jsonChars v ++ '}' :: rest) = some (v, '}' :: rest) :=
      jsonRoundtripValue v g' ('}' :: rest) (by omega) (by rfl)
    rw [show jsonQuoteChars k
          ++ ':' :: (jsonChars v ++ (jsonCharsMembersRest ([] : List (String × Json))
            ++ '}' :: rest))
        = '"' :: (k.data.flatMap jsonEscapeChar
            ++ '"' :: (':' :: (jsonChars v ++ '}' :: rest))) from by
      simp [jsonQuoteChars, jsonCharsMembersRest]]
    exact jsonParseMembers_close g' _ k.data _ v rest hkey hval
  | k, v, (k2, v2) :: kvs', g, rest, hg => by
    obtain ⟨g', rfl⟩ : ∃ h, g = h + 1 := ⟨g - 1, by omega⟩
    have harith : (jsonQuoteChars k2).length + (jsonChars v2).length
        + (jsonCharsMembersRest kvs').length + 1 ≤ g' := by
      simp only [jsonCharsMembersRest, jsonQuoteChars, List.length_cons,
        List.length_append, List.length_singleton] at hg ⊢
      omega
    have hkey : jsonParseStringBody (k.data.flatMap jsonEscapeChar
        ++ '"' :: (':' :: (jsonChars v ++ ',' :: (jsonQuoteChars k2
          ++ ':' :: (jsonChars v2 ++ (jsonCharsMembersRest kvs' ++ '}' :: rest))))))
        = some (k.data, ':' :: (jsonChars v ++ ',' :: (jsonQuoteChars k2
          ++ ':' :: (jsonChars v2 ++ (jsonCharsMembersRest kvs' ++ '}' :: rest))))) :=
      jsonParseStringBody_quote k.data _
    have hval : jsonParseValue g' (jsonChars v ++ ',' :: (jsonQuoteChars k2
        ++ ':' :: (jsonChars v2 ++ (jsonCharsMembersRest kvs' ++ '}' :: rest))))
        = some (v, ',' :: (jsonQuoteChars k2
          ++ ':' :: (jsonChars v2 ++ (jsonCharsMembersRest kvs' ++ '}' :: rest)))) :=
      jsonRoundtripValue v g' _ (by omega) (by rfl)
    rw [show jsonCharsMembersRest ((k2, v2) :: kvs') ++ '}' :: rest
        = ',' :: (jsonQuoteChars k2
            ++ ':' :: (jsonChars v2 ++ (jsonCharsMembersRest kvs' ++ '}' :: rest))) from by
      simp [jsonCharsMembersRest]]
    rw [show jsonQuoteChars k ++ ':' :: (jsonChars v ++ ',' :: (jsonQuoteChars k2
          ++ ':' :: (jsonChars v2 ++ (jsonCharsMembersRest kvs' ++ '}' :: rest))))
        = '"' :: (k.data.flatMap jsonEscapeChar
            ++ '"' :: (':' :: (jsonChars v ++ ',' :: (jsonQuoteChars k2
              ++ ':' :: (jsonChars v2
                ++ (jsonCharsMembersRest kvs' ++ '}' :: rest)))))) from by
      simp [jsonQuoteChars]]
    rw [jsonParseMembers_comma g' _ k.data _ v _ hkey hval]
    rw [jsonRoundtripMembers k2 v2 kvs' g' rest harith]
    rfl

termination_by _ v kvs _ _ _ => sizeOf v + sizeOf kvs
decreasing_by
all_goals simp_wf
all_goals omega

end

/-! ## Claim C5 (JSON auto-serialization with content-type injection) -/

theorem json_roundtrip (j : Json) : Json.parse (Json.stringify j) = some j := by
  have h := jsonRoundtripValue j ((jsonChars j).length + 1) [] (by omega) (by rfl)
  rw [List.append_nil] at h
  simp only [Json.parse, Json.stringify, h]

theorem jsToLowerCase_contentType : jsToLowerCase "Content-Type" = "content-type" := by
  decide

theorem headers_any_exact_of_lower (l : List (String × String))
    (h : l.any (fun p => jsToLowerCase p.1 == "content-type") = false) :
    l.any (fun p => p.1 == "Content-Type") = false := by
  cases hx : l.any (fun p => p.1 == "Content-Type") with
  | false => rfl
  | true =>
    exfalso
    rw [List.any_eq_true] at hx
    obtain ⟨p, hp, hpe⟩ := hx
    rw [List.any_eq_false] at h
    apply h p hp
    have he : p.1 = "Content-Type" := eq_of_beq hpe
    rw [he, jsToLowerCase_contentType]
    decide

theorem optionallyAddJSONContentType_status (ro : ResponseInit) :
    (optionallyAddJSONContentType ro).status = ro.status := by
  obtain ⟨st, hd⟩ := ro
  cases hd with
  | none => rfl
  | some rep =>
    cases rep with
    | object l => simp only [optionallyAddJSONContentType]; split <;> rfl
    | pairs l => simp only [optionallyAddJSONContentType]; split <;> rfl
    | collection hh => simp only [optionallyAddJSONContentType]; split <;> rfl

theorem optionallyAddJSONContentType_present (ro : ResponseInit)
    (h : hasContentType ro.headers = true) :
    optionallyAddJSONContentType ro = ro := by
  obtain ⟨st, hd⟩ := ro
  cases hd with
  | none => simp [hasContentType] at h
  | some rep =>
    cases rep with
    | object l =>
      simp only [hasContentType] at h
      simp only [optionallyAddJSONContentType, h, if_true]
    | pairs l =>
      simp only [hasContentType] at h
      simp only [optionallyAddJSONContentType, h, if_true]
    | collection hh =>
      simp only [hasContentType] at h
      obtain ⟨v, hv⟩ := Option.isSome_iff_exists.mp h
      simp only [optionallyAddJSONContentType, hv, Option.isNone_some, Bool.false_eq_true,
        if_false]

theorem optionallyAddJSONContentType_absent (ro : ResponseInit)
    (h : hasContentType ro.headers = false) :
    headersOfInit (optionallyAddJSONContentType ro).headers
      = headersOfInit ro.headers ++ [("Content-Type", "application/json")] := by
  obtain ⟨st, hd⟩ := ro
  cases hd with
  | none => rfl
  | some rep =>
    cases rep with
    | object l =>
      simp only [hasContentType] at h
      have hex := headers_any_exact_of_lower l h
      simp only [optionallyAddJSONContentType, h, Bool.false_eq_true, if_false,
        setObjectMember, hex, headersOfInit]
    | pairs l =>
      simp only [hasContentType] at h
      simp only [optionallyAddJSONContentType, h, Bool.false_eq_true, if_false, headersOfInit]
    | collection hh =>
      simp only [hasContentType] at h
      have hno : headersGet hh "Content-Type" = none := by
        cases hg : headersGet hh "Content-Type" with
        | none => rfl
        | some v => rw [hg] at h; simp at h
      have hfind : List.find? (fun p => jsToLowerCase p.1 == jsToLowerCase "Content-Type") hh
          = none := by
        have hno2 := hno
        rw [headersGet] at hno2
        cases hf : List.find? (fun p => jsToLowerCase p.1 == jsToLowerCase "Content-Type") hh with
        | none => rfl
        | some q => rw [hf] at hno2; simp at hno2
      have hfil : hh.filter
          (fun p => jsToLowerCase p.1 != jsToLowerCase "Content-Type") = hh := by
        apply List.filter_eq_self.mpr
        intro p hp
        rw [List.find?_eq_none] at hfind
        have := hfind p hp
        simpa using this
      simp only [optionallyAddJSONContentType, hno, Option.isNone_none, if_true,
        headersOfInit, headersSet, hfil]

theorem synthesizeResponse_json (s : SimpleResponse) (j : Json)
    (hbody : s.body = some (.json j)) :
    synthesizeResponse s
      = mkResponse (some (.str (Json.stringify j)))
          (optionallyAddJSONContentType { status := s.status, headers := s.headers }) := by
  simp only [synthesizeResponse, hbody, canConstructResponseWith, Bool.false_eq_true,
    if_false, stringifyBody]

/-- Claim C5: on a matched call whose resolved simple response carries a
    plain keyed (JSON) body, the body is serialized to its JSON text (and
    parses back to an equal value), the status defaults to 200, and a
    `Content-Type: application/json` header is appended exactly when no
    content-type header is already present, the presence check being
    case-insensitive across the three header representations. -/
theorem mockedFetch_json_auto_serialization
    (env : FetchEnv) (cfg : FetchConfiguration) (handlers : List RegisteredHandler)
    (orig : RequestInfo → RequestInit → Response)
    (u : RequestInfo) (o : Option RequestInit)
    (handler : RegisteredHandler) (m : URLPatternResult) (req : Request)
    (s : SimpleResponse) (j : Json)
    (hmatch : matchFetchHandler env handlers (normalizeRequestURL u).2
        ((normalizeRequestOptions o).method.getD "GET") = some (handler, m))
    (hreq : (match (normalizeRequestURL u).1 with
        | some r => Except.ok r
        | none => env.newRequest (normalizeRequestURL u).2 (normalizeRequestOptions o))
        = Except.ok req)
    (hres : resolveResponse env handler req m (normalizeRequestURL u).2
        = Except.ok (Sum.inl s))
    (hbody : s.body = some (.json j)) :
    (mockedFetch env cfg handlers orig u o).outcome = .response (synthesizeResponse s)
    ∧ (synthesizeResponse s).body = some (.str (Json.stringify j))
    ∧ Json.parse (Json.stringify j) = some j
    ∧ (synthesizeResponse s).status = s.status.getD 200
    ∧ (hasContentType s.headers = true →
        (synthesizeResponse s).headers = headersOfInit s.headers)
    ∧ (hasContentType s.headers = false →
        (synthesizeResponse s).headers
          = headersOfInit s.headers ++ [("Content-Type", "application/json")]) := by
  refine ⟨?_, ?_, json_roundtrip j, ?_, ?_, ?_⟩
  · simp only [mockedFetch]
    rw [hmatch]
    simp only
    rw [hreq]
    simp only
    rw [hres]
  · rw [synthesizeResponse_json s j hbody]
    rfl
  · rw [synthesizeResponse_json s j hbody]
    show (optionallyAddJSONContentType { status := s.status, headers := s.headers }).status.getD 200
      = s.status.getD 200
    rw [optionallyAddJSONContentType_status]
  · intro h
    rw [synthesizeResponse_json s j hbody]
    show headersOfInit
        (optionallyAddJSONContentType { status := s.status, headers := s.headers }).headers
      = headersOfInit s.headers
    rw [optionallyAddJSONContentType_present _ h]
  · intro h
    rw [synthesizeResponse_json s j hbody]
    show headersOfInit
        (optionallyAddJSONContentType { status := s.status, headers := s.headers }).headers
      = headersOfInit s.headers ++ [("Content-Type", "application/json")]
    rw [optionallyAddJSONContentType_absent _ h]

/-- Witness for claim C5: the fixture handler with body `{a: 1}` and no
    headers yields a response with status 200, the serialized body, and the
    injected content type, and the body parses back to `{a: 1}`. -/
theorem mockedFetch_json_auto_serialization_witness :
    (mockedFetch sampleEnv defaultConfiguration [jsonBodyHandler]
        (fun _ _ => mkResponse none { status := some 200, headers := none })
        (.str "http://h/x") none).outcome
      = .response (synthesizeResponse
          { status := none, headers := none, body := some (.json (.obj [("a", .num 1)])) })
    ∧ (synthesizeResponse
          { status := none, headers := none, body := some (.json (.obj [("a", .num 1)])) }).body
      = some (.str (Json.stringify (.obj [("a", .num 1)])))
    ∧ Json.parse (Json.stringify (.obj [("a", .num 1)])) = some (.obj [("a", .num 1)])
    ∧ (synthesizeResponse
          { status := none, headers := none, body := some (.json (.obj [("a", .num 1)])) }).status
      = 200
    ∧ (synthesizeResponse
          { status := none, headers := none, body := some (.json (.obj [("a", .num 1)])) }).headers
      = [("Content-Type", "application/json")] := by
  have h := mockedFetch_json_auto_serialization sampleEnv defaultConfiguration
    [jsonBodyHandler] (fun _ _ => mkResponse none { status := some 200, headers := none })
    (.str "http://h/x") none jsonBodyHandler { pathnameGroups := [] }
    { url := "http://h/x", options := normalizeRequestOptions none }
    { status := none, headers := none, body := some (.json (.obj [("a", .num 1)])) }
    (.obj [("a", .num 1)]) rfl rfl rfl rfl
  exact ⟨h.1, h.2.1, h.2.2.1, h.2.2.2.1, h.2.2.2.2.2 rfl⟩

end Mockfetch
